import Mathlib

/-!
# SkillViz job-market analytics engine: a verification development

This file embeds the data-processing core of the SkillViz dashboard
(`data_processor.py`, `api_endpoints.py`) in Lean 4 and proves properties
of the embedded operations: record deduplication, ingestion/category
merge semantics, salary-text parsing, column-name validation, and the
aggregation functions (market summary, skill statistics, regression,
salary correlation).

Modelling conventions:
* A pandas `DataFrame` of job records is a `List Rec`; a frame built by
  `pd.DataFrame(list_of_dicts)` has no columns when the list is empty, so
  column access on the canonical empty frame raises `KeyError` — modelled
  with `Except`.
* Python floats are modelled by `ℚ`.  Every numeric fact proved here
  involves either exact integer arithmetic (exact in IEEE doubles at these
  magnitudes) or sign/ordering facts that hold in both ℚ and float.
* Python strings are modelled by `String`; `str.lower` is modelled on the
  ASCII range (all identity keys, category names and column names touched
  by the claims are ASCII).
-/

/-- ASCII lower-casing of one character, as Python `str.lower` acts on the
ASCII range. -/
def lowerChar (c : Char) : Char :=
  if 65 ≤ c.toNat ∧ c.toNat ≤ 90 then Char.ofNat (c.toNat + 32) else c

/-- The whitespace characters removed by Python `str.strip` (ASCII part). -/
def isSpaceP (c : Char) : Bool :=
  c = ' ' || c = '\t' || c = '\n' || c = '\r' || c = '\x0b' || c = '\x0c'

/-- `str.lower` on a character list. -/
def pyLowerL (l : List Char) : List Char := l.map lowerChar

/-- Remove trailing whitespace (right half of `str.strip`). -/
def pyRstripL (l : List Char) : List Char :=
  (l.reverse.dropWhile isSpaceP).reverse

/-- `str.strip` on a character list. -/
def pyStripL (l : List Char) : List Char :=
  pyRstripL (l.dropWhile isSpaceP)

/-- Python `s.lower()`. -/
def pyLower (s : String) : String := ⟨pyLowerL s.data⟩

/-- Python `s.strip()`. -/
def pyStrip (s : String) : String := ⟨pyStripL s.data⟩

/-- Python `s.lower().strip()` — the normalisation the processor applies to
category names and (equivalently, `.strip()` first) to column names. -/
def pyNorm (s : String) : String := pyStrip (pyLower s)

/-- Insert a string into an ascending list (Python `sorted` is stable
ascending by code point; `String` order in Lean is code-point order). -/
def insertSorted (s : String) : List String → List String
  | [] => [s]
  | t :: ts => if s ≤ t then s :: t :: ts else t :: insertSorted s ts

/-- Python `sorted` on a list of strings. -/
def sortStrings : List String → List String
  | [] => []
  | s :: ss => insertSorted s (sortStrings ss)

/-- A cleaned job record (the row shape produced by `_clean_data`).
`skills` models the Python dict skill-name → proficiency-level (insertion
ordered); `category` is `none` when the source row had no such key
(pandas renders the missing value as `NaN`, which `astype(str)` turns into
the literal string `"nan"`); `salary_avg` is `none` when salary parsing
failed (pandas `NaN`).  Pass-through columns not read by any claimed
computation (`employment_type`, `url`, dates, …) are omitted. -/
structure Rec where
  role : String
  company : String
  city : String
  seniority : String := ""
  skills : List (String × String) := []
  category : Option String := none
  salary_avg : Option ℚ := none
  remote : Option Bool := none
deriving Repr, DecidableEq

/-- The derived `requiredSkills` column: `list(skills.keys())`. -/
def requiredSkills (r : Rec) : List String := r.skills.map Prod.fst

/-- The derived `skillsCount` column: `len(skills)`. -/
def skillsCount (r : Rec) : Nat := r.skills.length

/-- The composite duplicate-detection key built by
`JobDataProcessor._remove_duplicates.create_key`:
`f"{role}_{company}_{city}_{'|'.join(sorted(skills.keys()))}".lower()`.
Proficiency levels are not part of the key. -/
def create_key (r : Rec) : String :=
  let skills_str := String.intercalate "|" (sortStrings (requiredSkills r))
  pyLower (r.role ++ "_" ++ r.company ++ "_" ++ r.city ++ "_" ++ skills_str)

/-- `JobDataProcessor._remove_duplicates`: drop from `new_df` every row
whose key occurs in `existing_df`; an empty `existing_df` short-circuits. -/
def remove_duplicates (new_df existing_df : List Rec) : List Rec :=
  if existing_df.isEmpty then new_df
  else
    let existing_keys := existing_df.map create_key
    new_df.filter (fun r => !(existing_keys.contains (create_key r)))

/-- One greedy repetition pass of the regex group `(\s?\d{3})*` used by
`parse_salary`'s number pattern `\d+(?:\s?\d{3})*(?:\s?\d{3})*`: consume
an optional whitespace character followed by exactly three digits, as
often as possible.  Returns (consumed characters, rest). -/
def repGroupsAux : Nat → List Char → List Char × List Char
  | 0, l => ([], l)
  | fuel + 1, sp :: d1 :: d2 :: d3 :: rest =>
    if isSpaceP sp && d1.isDigit && d2.isDigit && d3.isDigit then
      let pr := repGroupsAux fuel rest
      (sp :: d1 :: d2 :: d3 :: pr.1, pr.2)
    else if sp.isDigit && d1.isDigit && d2.isDigit then
      let pr := repGroupsAux fuel (d3 :: rest)
      (sp :: d1 :: d2 :: pr.1, pr.2)
    else ([], sp :: d1 :: d2 :: d3 :: rest)
  | _, [a, b, c] =>
    if a.isDigit && b.isDigit && c.isDigit then ([a, b, c], []) else ([], [a, b, c])
  | _, l => ([], l)

/-- Entry point with sufficient fuel (each repetition consumes at least
three characters while fuel drops by one, so `l.length` always suffices). -/
def repGroups (l : List Char) : List Char × List Char := repGroupsAux l.length l

/-- `re.findall(r'(\d+(?:\s?\d{3})*(?:\s?\d{3})*)', clean_str)`: scan for
maximal digit runs optionally extended by space-separated 3-digit groups.
The fuel argument bounds recursion depth; each step consumes at least one
character (`repGroups` only ever returns a suffix of its input), so fuel
equal to the input length is always sufficient. -/
def scanNumbersAux : Nat → List Char → List (List Char)
  | 0, _ => []
  | _, [] => []
  | fuel + 1, c :: rest =>
    if c.isDigit then
      let run := (c :: rest).takeWhile (·.isDigit)
      let r1 := (c :: rest).dropWhile (·.isDigit)
      let pr := repGroups r1
      (run ++ pr.1) :: scanNumbersAux fuel pr.2
    else scanNumbersAux fuel rest

/-- The number tokens of a cleaned salary string. -/
def scanNumbers (l : List Char) : List (List Char) := scanNumbersAux l.length l

/-- Numeric value of a digit sequence. -/
def digitsVal (l : List Char) : Nat := l.foldl (fun n c => n * 10 + (c.toNat - 48)) 0

/-- `int(re.sub(r'\s+', '', token))`: strip the thousands whitespace and
read the integer. -/
def tokenToNat (tok : List Char) : Nat := digitsVal (tok.filter (fun c => !(isSpaceP c)))

/-- Currency alternatives of `re.search(r'(PLN|EUR|USD|zł|€|\$)', s, re.IGNORECASE)`,
in alternation order. -/
def currencyPats : List String := ["PLN", "EUR", "USD", "zł", "€", "$"]

/-- Case-insensitive (ASCII) prefix match of a pattern against the text. -/
def ciPrefixMatch : List Char → List Char → Bool
  | [], _ => true
  | _ :: _, [] => false
  | p :: ps, c :: cs => (lowerChar p == lowerChar c) && ciPrefixMatch ps cs

/-- Try each currency alternative at the head of `l`; on success return the
matched slice of the original text (regex `group(1)` keeps original case). -/
def findCurrencyAt (l : List Char) : Option String :=
  match currencyPats.find? (fun p => ciPrefixMatch p.data l) with
  | some p => some ⟨l.take p.data.length⟩
  | none => none

/-- Leftmost currency match in the string, as `re.search` finds it. -/
def findCurrency : List Char → Option String
  | [] => none
  | c :: rest =>
    match findCurrencyAt (c :: rest) with
    | some s => some s
    | none => findCurrency rest

/-- The character class `[PLNEURUSDzł€\$]` with `re.IGNORECASE`
(`re.sub(..., '', salary_str)` removes these individual characters). -/
def currencyClassChars : List Char := ['p', 'l', 'n', 'e', 'u', 'r', 's', 'd', 'z', 'ł', '€', '$']

/-- Remove every character of the currency character class. -/
def removeCurrencyChars (l : List Char) : List Char :=
  l.filter (fun c => !(currencyClassChars.contains (lowerChar c) || c == 'Ł'))

/-- The hourly→monthly heuristic: a parsed value below 300 is read as an
hourly rate and multiplied by 168 working hours. -/
def hourlyAdjust (n : Nat) : Nat := if n < 300 then n * 168 else n

/-- The numeric tokens `parse_salary` extracts from a salary string:
strip, remove currency characters, strip again, scan. -/
def numbersOf (s : String) : List Nat :=
  (scanNumbers (pyStripL (removeCurrencyChars (pyStripL s.data)))).map tokenToNat

/-- The four derived salary columns. -/
structure SalaryFields where
  salary_min : Option ℚ
  salary_max : Option ℚ
  salary_avg : Option ℚ
  salary_currency : Option String
deriving Repr, DecidableEq

/-- `parse_salary` from `JobDataProcessor._normalize_salary`: extract the
currency token (default `PLN`), extract the numeric tokens, then two or
more tokens → range (min, max, avg = midpoint), exactly one → single value
in all three fields, none → all null.  The hourly→monthly conversion is
applied to each value independently. -/
def parse_salary (s : String) : SalaryFields :=
  let stripped := pyStripL s.data
  let currency := (findCurrency stripped).getD "PLN"
  match numbersOf s with
  | n1 :: n2 :: _ =>
    let min_sal := hourlyAdjust n1
    let max_sal := hourlyAdjust n2
    let avg_sal : ℚ := ((min_sal : ℚ) + (max_sal : ℚ)) / 2
    { salary_min := some (min_sal : ℚ), salary_max := some (max_sal : ℚ),
      salary_avg := some avg_sal, salary_currency := some currency }
  | [n] =>
    let sal := hourlyAdjust n
    { salary_min := some (sal : ℚ), salary_max := some (sal : ℚ),
      salary_avg := some (sal : ℚ), salary_currency := some currency }
  | [] =>
    { salary_min := none, salary_max := none, salary_avg := none, salary_currency := none }

/-- `_normalize_column_names`' fixed field map (canonical names only — note
that no legacy alias such as `title` or `experienceLevel` appears). -/
def field_mapping : List (String × String) :=
  [("role", "role"), ("company", "company"), ("city", "city"),
   ("seniority", "seniority"), ("skills", "skills"), ("category", "category"),
   ("employment_type", "employment_type"), ("job_time_type", "job_time_type"),
   ("remote", "remote"), ("salary", "salary"),
   ("published_date", "published_date"), ("url", "url")]

/-- `_normalize_column_names`: lower-case and strip each column name and map
it through `field_mapping`; unknown columns keep their original name. -/
def normalize_column_names (cols : List String) : List String :=
  cols.map fun col =>
    match field_mapping.lookup (pyNorm col) with
    | some v => v
    | none => col

/-- The required columns checked by `process_json_data`. -/
def required_columns : List String := ["role", "company", "city", "seniority", "skills"]

/-- `[col for col in required_columns if col not in df.columns]`. -/
def missing_columns (cols : List String) : List String :=
  required_columns.filter (fun c => !(cols.contains c))

/-- The column validation step of `process_json_data`: normalise the raw
column names, then raise `ValueError` listing every missing required
column, or pass. -/
def validate_columns (raw_cols : List String) : Except (List String) Unit :=
  let cols := normalize_column_names raw_cols
  let missing := missing_columns cols
  if missing.isEmpty then .ok () else .error missing

/-- Modelled from the spec, NOT from the source (claim-side definition for
the refinement check): the accepted name variants per required field —
`role/title`, `company/companyName`, `city`, `seniority/experienceLevel`,
`skills/requiredSkills` — matched case-insensitively. -/
def specFieldVariants : List (String × List String) :=
  [("role", ["role", "title"]), ("company", ["company", "companyname"]),
   ("city", ["city"]), ("seniority", ["seniority", "experiencelevel"]),
   ("skills", ["skills", "requiredskills"])]

/-- Modelled from the spec, NOT from the source: the required fields the
claim says validation must name — those none of whose variants occur in
the batch's column set. -/
def specMissing (raw_cols : List String) : List String :=
  (specFieldVariants.filter fun p =>
    !(p.2.any fun v => raw_cols.any fun r => pyNorm r == v)).map Prod.fst

/-- First-occurrence-order deduplication, as `pandas.Series.unique` and
`dict` key iteration behave. -/
def uniqueFirst : List String → List String
  | [] => []
  | c :: cs => c :: (uniqueFirst cs).filter (fun x => x != c)

/-- The in-memory state of `JobDataProcessor`: `df` is the full table
(`None` before any data is loaded or ingested), `categories_data` the
insertion-ordered category → partition dict. -/
structure ProcState where
  df : Option (List Rec)
  categories_data : List (String × List Rec)
deriving Repr, DecidableEq

/-- A fresh processor with no persisted data. -/
def initState : ProcState := { df := none, categories_data := [] }

/-- The category-column handling of `process_json_data` (lines 241-246):
if no record carries a `category` key the column is created as
`'default'`; otherwise missing entries surface as the string `"nan"`
(`astype(str)` of `NaN`); then `.str.lower().str.strip()`. -/
def set_categories (batch : List Rec) : List Rec :=
  let colPresent := batch.any fun r => r.category.isSome
  batch.map fun r =>
    let cat := pyNorm (if colPresent then r.category.getD "nan" else "default")
    { r with category := some cat }

/-- The normalised category of a record (total accessor). -/
def recCat (r : Rec) : String := r.category.getD ""

/-- Replace the value stored under `k`. -/
def updateAssoc (cats : List (String × List Rec)) (k : String) (v : List Rec) :
    List (String × List Rec) :=
  cats.map fun p => if p.1 == k then (k, v) else p

/-- One iteration of the category-partition merge loop of
`process_json_data` (lines 262-270): create the partition for `ck` or
append the batch rows not already present in it. -/
def merge_category_step (df : List Rec) (acc : List (String × List Rec))
    (ck : String) : List (String × List Rec) :=
  let category_df := df.filter fun r => recCat r == ck
  match acc.lookup ck with
  | none => acc ++ [(ck, category_df)]
  | some existing =>
    updateAssoc acc ck (existing ++ remove_duplicates category_df existing)

/-- The category-partition merge loop of `process_json_data` (lines
260-270), iterating `merge_category_step` over the batch's distinct
categories in first-appearance order. -/
def merge_categories (cats : List (String × List Rec)) (df : List Rec) :
    List (String × List Rec) :=
  (uniqueFirst (df.map recCat)).foldl (merge_category_step df) cats

/-- The duplicate-handling / merge step of `process_json_data` (lines
251-270), acting on the already cleaned batch: with `append=true` and a
loaded table, deduplicate the batch against the full table, append, and
merge the deduplicated batch into the partitions; otherwise replace the
full table with the batch while still merging the whole batch into the
partitions additively. -/
def process_json_data_merge (s : ProcState) (batch₀ : List Rec)
    (append_to_existing : Bool) : ProcState :=
  let batch := set_categories batch₀
  match s.df, append_to_existing with
  | some existing, true =>
    let df := remove_duplicates batch existing
    { df := some (existing ++ df),
      categories_data := merge_categories s.categories_data df }
  | _, _ =>
    { df := some batch, categories_data := merge_categories s.categories_data batch }

/-- `process_json_data` end to end: an empty list returns an empty frame
without touching state; otherwise the (normalised) column set is
validated — raising `ValueError` with every missing required column —
and only then is the cleaned batch merged.  `batch` stands for the rows
after `_clean_data` (row-level cleaning does not move rows between the
full table and the partitions, which is what the claims quantify over). -/
def process_json_data (s : ProcState) (raw_cols : List String) (batch : List Rec)
    (append_to_existing : Bool) : Except (List String) ProcState :=
  if batch.isEmpty then .ok s
  else
    match validate_columns raw_cols with
    | .error missing => .error missing
    | .ok _ => .ok (process_json_data_merge s batch append_to_existing)

/-- `get_data`: the full table, or an empty frame when nothing is loaded. -/
def get_data (s : ProcState) : List Rec := s.df.getD []

/-- `get_categories`: the category keys. -/
def get_categories (s : ProcState) : List String := s.categories_data.map Prod.fst

/-- `get_data_by_category`: `None`/`"all"` → the full table; otherwise the
partition stored under the lower-cased, stripped name, or an empty frame. -/
def get_data_by_category (s : ProcState) (category : Option String) : List Rec :=
  match category with
  | none => get_data s
  | some c =>
    if c == "all" then get_data s
    else (s.categories_data.lookup (pyNorm c)).getD []

/-- `clear_category_data`: `None`/`"all"` wipes everything; a known
category deletes its partition and rebuilds the full table as the
concatenation of the remaining partitions; an unknown category is a
no-op. -/
def clear_category_data (s : ProcState) (category : Option String) : ProcState :=
  match category with
  | none => { df := some [], categories_data := [] }
  | some c =>
    if c == "all" then { df := some [], categories_data := [] }
    else
      let ck := pyNorm c
      if (s.categories_data.lookup ck).isSome then
        let cats := s.categories_data.filter fun p => p.1 != ck
        { df := some (if cats.isEmpty then [] else (cats.map Prod.snd).flatten),
          categories_data := cats }
      else s

/-- One mutating operation on the dataset store.  `ingest` is
`process_json_data` with `append_to_existing=true` (the merge step; an
ingest with `append=false` is treated separately in the theorems). -/
inductive Op where
  | ingest (batch : List Rec)
  | clear (category : Option String)
deriving Repr

/-- Run one operation. -/
def runOp (s : ProcState) : Op → ProcState
  | .ingest batch => process_json_data_merge s batch true
  | .clear c => clear_category_data s c

/-- Run a sequence of operations from the fresh state. -/
def runOps (ops : List Op) : ProcState := ops.foldl runOp initState

/-- The keys (by `create_key`) of a record list. -/
def keysOf (l : List Rec) : List String := l.map create_key

/-- The invariant maintained by `append=true` ingestion and category
clearing: category keys are unique and lower/strip-normal, the full table
is `None` only while the partitions are empty, and the identity keys of
the full table are exactly the union of the partitions' identity keys. -/
def StateInv (s : ProcState) : Prop :=
  (s.categories_data.map Prod.fst).Nodup ∧
  (∀ p ∈ s.categories_data, pyNorm p.1 = p.1) ∧
  (s.df = none → s.categories_data = []) ∧
  ∀ k, k ∈ keysOf (get_data s) ↔ ∃ p ∈ s.categories_data, k ∈ keysOf p.2

/-- Occurrences of `x` in `l`. -/
def countOcc (x : String) (l : List String) : Nat := (l.filter (· == x)).length

/-- Insert into a count-descending list, after existing entries of equal
count (stable). -/
def insertByCountDesc (p : String × Nat) : List (String × Nat) → List (String × Nat)
  | [] => [p]
  | q :: qs => if q.2 < p.2 then p :: q :: qs else q :: insertByCountDesc p qs

/-- Stable descending sort by count. -/
def sortCountDesc : List (String × Nat) → List (String × Nat)
  | [] => []
  | p :: ps => insertByCountDesc p (sortCountDesc ps)

/-- `pandas.Series.value_counts()`: distinct values with their counts,
sorted by count descending (ties here in first-occurrence order; pandas
leaves the tie order unspecified, and no theorem below depends on it). -/
def value_counts (l : List String) : List (String × Nat) :=
  sortCountDesc ((uniqueFirst l).map fun s => (s, countOcc s l))

/-- `get_skills_statistics`: `df['requiredSkills'].explode().dropna().value_counts()`,
or an empty series for missing data. -/
def get_skills_statistics (rows : List Rec) : List (String × Nat) :=
  if rows.isEmpty then []
  else value_counts (rows.map requiredSkills).flatten

/-- All unordered pairs `"A + B"` of a lexicographically sorted skill list,
in the nested-loop order of `extract_combinations`. -/
def pairCombos : List String → List String
  | [] => []
  | s :: rest => rest.map (fun t => s ++ " + " ++ t) ++ pairCombos rest

/-- `get_skill_combinations`: explode each record's sorted skill pairs,
count them, keep those with at least `min_frequency` occurrences, sorted
by frequency descending. -/
def get_skill_combinations (rows : List Rec) (min_frequency : Nat := 2) :
    List (String × Nat) :=
  if rows.isEmpty then []
  else
    let extract := fun (skills_list : List String) =>
      if 2 ≤ skills_list.length then pairCombos (sortStrings skills_list) else []
    let all_combinations := (rows.map fun r => extract (requiredSkills r)).flatten
    if all_combinations.isEmpty then []
    else (value_counts all_combinations).filter fun p => min_frequency ≤ p.2

/-- IEEE/Python banker's rounding of a rational to an integer. -/
def halfEvenRound (q : ℚ) : ℤ :=
  let f := ⌊q⌋
  if q - f < 1/2 then f
  else if 1/2 < q - f then f + 1
  else if f % 2 = 0 then f else f + 1

/-- Python `round(q, d)` (on exact values; float representation noise is
not modelled — no claim inspects a rounded digit). -/
def roundQ (d : Nat) (q : ℚ) : ℚ := (halfEvenRound (q * 10 ^ d) : ℚ) / 10 ^ d

/-- The fixed proficiency-level weight table of `get_skill_weight_analysis`. -/
def level_weights : List (String × ℚ) :=
  [("Beginner", 1), ("Regular", 2), ("Advanced", 3), ("Senior", 4), ("Expert", 5),
   ("B1", 1), ("B2", 2), ("C1", 3), ("C2", 4)]

/-- One row of the skill-weight table. -/
structure SkillWeightRow where
  skill : String
  frequency : Nat
  total_weight : ℚ
  avg_weight : ℚ
  importance_score : ℚ
  level_distribution : List (String × Nat)
deriving Repr, DecidableEq

/-- Insert into an importance-descending list (stable). -/
def insertByImportanceDesc (p : SkillWeightRow) :
    List SkillWeightRow → List SkillWeightRow
  | [] => [p]
  | q :: qs =>
    if q.importance_score < p.importance_score then p :: q :: qs
    else q :: insertByImportanceDesc p qs

/-- Stable descending sort by importance score. -/
def sortByImportanceDesc : List SkillWeightRow → List SkillWeightRow
  | [] => []
  | p :: ps => insertByImportanceDesc p (sortByImportanceDesc ps)

/-- `get_skill_weight_analysis`: empty frame → empty table; otherwise
aggregate every (skill, level) pair — weights via `level_weights`, with
unknown levels defaulting to 2 (`fillna(2)`) — group by skill (pandas
`groupby` sorts group keys), and sort the result by `importance_score`
descending.  `importance_score = total_weight`; `avg_weight` is rounded
to two decimals. -/
def get_skill_weight_analysis (rows : List Rec) : List SkillWeightRow :=
  if rows.isEmpty then []
  else
    let all_skill_data := (rows.map (fun r => r.skills)).flatten
    let skills := sortStrings (uniqueFirst (all_skill_data.map Prod.fst))
    let table := skills.map fun sk =>
      let entries := all_skill_data.filter fun p => p.1 == sk
      let total : ℚ := (entries.map fun p => (level_weights.lookup p.2).getD 2).sum
      let count := entries.length
      let avg : ℚ := if 0 < count then total / count else 0
      { skill := sk, frequency := count, total_weight := total,
        avg_weight := roundQ 2 avg, importance_score := total,
        level_distribution := value_counts (entries.map Prod.snd) : SkillWeightRow }
    sortByImportanceDesc table

/-- `pandas.Series.mode().iloc[0]`: among the most frequent values, the
smallest (mode returns the sorted list of modal values). -/
def modeFirst (l : List String) : Option String :=
  let vc := (uniqueFirst l).map fun s => (s, countOcc s l)
  let m := (vc.map Prod.snd).foldl max 0
  (sortStrings ((vc.filter fun p => p.2 == m).map Prod.fst)).head?

/-- The summary mapping built by `get_market_summary`. -/
structure MarketSummary where
  total_jobs : Nat
  unique_companies : Nat
  unique_cities : Nat
  average_skills_per_job : ℚ
  most_common_seniority : String
  top_hiring_city : String
  top_hiring_company : String
  remote_jobs_percentage : Option ℚ
  most_demanded_skill : Option String
  top_skill_demand : Option (Nat × ℚ)
deriving Repr, DecidableEq

/-- `get_market_summary`.  `len(df)` succeeds on every frame, but the very
next line `df['company'].nunique()` raises `KeyError: 'company'` on the
canonical empty frame (a frame with no rows has no columns) — there is no
empty-input guard in this function, unlike the other aggregations. -/
def get_market_summary (rows : List Rec) : Except String MarketSummary :=
  if rows.isEmpty then .error "KeyError: company"
  else
    .ok {
      total_jobs := rows.length
      unique_companies := (uniqueFirst (rows.map (·.company))).length
      unique_cities := (uniqueFirst (rows.map (·.city))).length
      average_skills_per_job :=
        roundQ 1 ((rows.map fun r => (skillsCount r : ℚ)).sum / rows.length)
      most_common_seniority := (modeFirst (rows.map (·.seniority))).getD "N/A"
      top_hiring_city := (modeFirst (rows.map (·.city))).getD "N/A"
      top_hiring_company := (modeFirst (rows.map (·.company))).getD "N/A"
      remote_jobs_percentage :=
        if rows.any fun r => r.remote.isSome then
          some (((rows.filter fun r => r.remote == some true).length : ℚ)
            / rows.length * 100)
        else none
      most_demanded_skill := ((get_skills_statistics rows).head?).map Prod.fst
      top_skill_demand := ((get_skills_statistics rows).head?).map fun p =>
        (p.2, roundQ 1 ((p.2 : ℚ) / rows.length * 100))
    }

/-- The seniority → ordinal map shared by correlation and regression. -/
def seniority_mapping : List (String × ℚ) :=
  [("Junior", 1), ("Mid", 2), ("Regular", 2), ("Senior", 3), ("Expert", 4), ("Lead", 4)]

/-- `map(seniority_mapping).fillna(2)`. -/
def seniorityNumeric (r : Rec) : ℚ := (seniority_mapping.lookup r.seniority).getD 2

/-- Dot product of two equal-length columns. -/
def dotQ (a b : List ℚ) : ℚ := (List.zipWith (· * ·) a b).sum

/-- `np.mean` of a nonempty column (callers guard emptiness). -/
def meanQ (l : List ℚ) : ℚ := l.sum / l.length

/-- `np.mean` where the column may be empty (`np.mean([])` is `NaN`,
modelled as `none`). -/
def meanOpt (l : List ℚ) : Option ℚ :=
  if l.isEmpty then none else some (meanQ l)

/-- One linear-regression entry (the formatted `equation` string is
omitted: presentation only). -/
structure RegressionResult where
  slope : ℚ
  intercept : ℚ
  r_squared : ℚ
  data_points : Nat
deriving Repr, DecidableEq

/-- The ordinary-least-squares fit exactly as both regression branches of
`get_regression_analysis` compute it: closed-form slope/intercept when the
denominator `n·Σx² − (Σx)²` is nonzero, and the seniority branch's
degenerate fallback `a = 0, b = mean(y)` otherwise; `r² = 1 − SSres/SStot`
when `SStot > 0`, else `0`. -/
def olsFit (x y : List ℚ) : RegressionResult :=
  let n : ℚ := (x.length : ℚ)
  let sum_x := x.sum
  let sum_y := y.sum
  let sum_xy := dotQ x y
  let sum_x2 := dotQ x x
  let denominator := n * sum_x2 - sum_x * sum_x
  let a := if denominator ≠ 0 then (n * sum_xy - sum_x * sum_y) / denominator else 0
  let b := if denominator ≠ 0 then (sum_y - a * sum_x) / n else sum_y / n
  let y_pred := x.map fun xi => a * xi + b
  let ss_res := (List.zipWith (fun yi pi => (yi - pi) ^ 2) y y_pred).sum
  let mean_y := sum_y / n
  let ss_tot := (y.map fun yi => (yi - mean_y) ^ 2).sum
  let r_squared := if 0 < ss_tot then 1 - ss_res / ss_tot else 0
  { slope := a, intercept := b, r_squared := r_squared, data_points := x.length }

/-- The target-skill entry of `get_regression_analysis` (group-mean
comparison; `np.mean` of an empty group is `NaN`, modelled as `none`). -/
structure SkillRegressionResult where
  salary_with_skill : Option ℚ
  salary_without_skill : Option ℚ
  difference : Option ℚ
  skill : String
  data_points : Nat
deriving Repr, DecidableEq

/-- A value of the heterogeneous `regression_results` dict. -/
inductive RegEntry where
  | linear (res : RegressionResult)
  | skillDiff (res : SkillRegressionResult)
deriving Repr, DecidableEq

/-- `get_regression_analysis`: empty result below 5 salaried records;
otherwise the seniority entry is always emitted (with the degenerate
fallback), the skills-count entry is emitted only when its denominator
`Σx² − (Σx)²/n` is nonzero (no fallback in that branch), and a requested
target skill adds a group-mean entry when it occurs in at least 3 salaried
records. -/
def get_regression_analysis (rows : List Rec) (target_skill : Option String) :
    List (String × RegEntry) :=
  if rows.isEmpty then []
  else
    let salary_df := rows.filter fun r => r.salary_avg.isSome
    if salary_df.isEmpty || salary_df.length < 5 then []
    else
      let y := salary_df.map fun r => r.salary_avg.getD 0
      let n : ℚ := (salary_df.length : ℚ)
      let x1 := salary_df.map seniorityNumeric
      let seniority_entries := [("seniority", RegEntry.linear (olsFit x1 y))]
      let x2 := salary_df.map fun r => (skillsCount r : ℚ)
      let count_entries :=
        if dotQ x2 x2 - x2.sum * x2.sum / n ≠ 0 then
          [("skills_count", RegEntry.linear (olsFit x2 y))]
        else []
      let skill_entries :=
        match target_skill with
        | none => []
        | some sk =>
          let ind := salary_df.map fun r =>
            if (requiredSkills r).contains sk then (1 : ℚ) else 0
          if 3 ≤ ind.length ∧ 3 ≤ ind.sum then
            let withS := (salary_df.filter fun r =>
              (requiredSkills r).contains sk).map fun r => r.salary_avg.getD 0
            let withoutS := (salary_df.filter fun r =>
              !((requiredSkills r).contains sk)).map fun r => r.salary_avg.getD 0
            let mw := meanOpt withS
            let mwo := meanOpt withoutS
            let diff := match mw, mwo with
              | some a, some b => some (a - b)
              | _, _ => none
            [("skill_" ++ sk, RegEntry.skillDiff
              { salary_with_skill := mw, salary_without_skill := mwo,
                difference := diff, skill := sk, data_points := y.length })]
          else []
      seniority_entries ++ count_entries ++ skill_entries

/-- `Σ (xᵢ − x̄)(yᵢ − ȳ)` — the covariance numerator of `np.corrcoef`. -/
def corrNum (x y : List ℚ) : ℚ :=
  let mx := meanQ x
  let my := meanQ y
  (List.zipWith (fun a b => (a - mx) * (b - my)) x y).sum

/-- `Σ (xᵢ − x̄)²` — an unnormalised variance. -/
def corrVar (x : List ℚ) : ℚ :=
  let mx := meanQ x
  (x.map fun a => (a - mx) ^ 2).sum

/-- `_precompute_salary_correlation`: over the salaried records, for each
of the 20 most frequent skills with at least 3 salaried occurrences,
`np.corrcoef(presence, salary)[0,1]` is the Pearson coefficient
`corrNum/√(corrVar·corrVar)`; it is `NaN` exactly when a variance is zero,
and such skills are skipped.  The embedding records the exact pair
(numerator, squared denominator): the emitted float is
`num / Real.sqrt denSq`, so `num² ≤ denSq` says precisely `|r| ≤ 1`. -/
def precompute_salary_correlation (rows : List Rec) : List (String × ℚ × ℚ) :=
  let salary_df := rows.filter fun r => r.salary_avg.isSome
  if salary_df.isEmpty then []
  else
    let all_skills := (salary_df.map requiredSkills).flatten
    let top_skills := ((value_counts all_skills).take 20).map Prod.fst
    top_skills.filterMap fun skill =>
      let presence := salary_df.map fun r =>
        if (requiredSkills r).contains skill then (1 : ℚ) else 0
      let sal := salary_df.map fun r => r.salary_avg.getD 0
      if 3 ≤ presence.sum then
        let num := corrNum presence sal
        let denSq := corrVar presence * corrVar sal
        if denSq ≠ 0 then some (skill, num, denSq) else none
      else none

/-- `get_all_skills_list`: the sorted set of all skill names in the
dataset (an empty frame yields an empty list). -/
def get_all_skills_list (rows : List Rec) : List String :=
  if rows.isEmpty then []
  else sortStrings (uniqueFirst (rows.map requiredSkills).flatten)

/-- Insert into an ascending rational list. -/
def insertQ (q : ℚ) : List ℚ → List ℚ
  | [] => [q]
  | t :: ts => if q ≤ t then q :: t :: ts else t :: insertQ q ts

/-- Ascending sort of a rational column. -/
def sortQ : List ℚ → List ℚ
  | [] => []
  | q :: qs => insertQ q (sortQ qs)

/-- `pandas.Series.median`: middle element of the sorted column, or the
midpoint of the two middle elements (callers guard emptiness). -/
def medianQ (l : List ℚ) : ℚ :=
  let s := sortQ l
  let n := s.length
  if n = 0 then 0
  else if n % 2 = 1 then s.getD (n / 2) 0
  else (s.getD (n / 2 - 1) 0 + s.getD (n / 2) 0) / 2

/-- Minimum of a nonempty column (0 on the unreachable empty case). -/
def minQ : List ℚ → ℚ
  | [] => 0
  | h :: t => t.foldl min h

/-- Maximum of a nonempty column (0 on the unreachable empty case). -/
def maxQ : List ℚ → ℚ
  | [] => 0
  | h :: t => t.foldl max h

/-- `pandas.Series.std` uses the sample variance (ddof = 1) under a square
root; the square root of a rational is irrational, so the embedding keeps
the exact square.  `none` models the `NaN` std of a single observation. -/
def sampleVarOpt (l : List ℚ) : Option ℚ :=
  if 2 ≤ l.length then
    some ((l.map fun x => (x - meanQ l) ^ 2).sum / ((l.length : ℚ) - 1))
  else none

/-- The `salary_stats` sub-dict of the per-skill analytics bundle
(`std_sq` is the square of the emitted std — see `sampleVarOpt`). -/
structure SalaryStats where
  count : Nat
  mean : ℚ
  median : ℚ
  min : ℚ
  max : ℚ
  std_sq : Option ℚ
deriving Repr, DecidableEq

/-- The analytics bundle built by `get_skill_detailed_analytics`.  The
Python function returns the empty dict `{}` when there is no data; that
outcome is modelled as `none` at the call site. -/
structure SkillAnalytics where
  total_offers : Nat
  market_share : ℚ
  level_distribution : List (String × Nat)
  seniority_distribution : List (String × Nat)
  salary_stats : Option SalaryStats
  top_companies : List (String × Nat)
  top_cities : List (String × Nat)
deriving Repr, DecidableEq

/-- `get_skill_detailed_analytics`: with `use_precomputed` a cache hit in
`precomputed` is returned directly; otherwise — and on a cache miss — the
bundle is computed on demand, returning the empty result (`none`) when
the frame is empty, the skill is unknown, or no row carries it.  The
`seniority`/`salary_avg`/`company`/`city` columns are present on every
cleaned frame, so the code's missing-column defaults are not reachable in
the embedding. -/
def get_skill_detailed_analytics (skill_name : String) (rows : List Rec)
    (precomputed : List (String × SkillAnalytics)) (use_precomputed : Bool) :
    Option SkillAnalytics :=
  let fallback :=
    if rows.isEmpty || !((get_all_skills_list rows).contains skill_name) then none
    else
      let skill_df := rows.filter fun r => (requiredSkills r).contains skill_name
      if skill_df.isEmpty then none
      else
        let skill_levels := skill_df.filterMap fun r => r.skills.lookup skill_name
        let skill_salaries := skill_df.filterMap fun r => r.salary_avg
        some {
          total_offers := skill_df.length
          market_share :=
            if 0 < rows.length then ((skill_df.length : ℚ) / rows.length) * 100 else 0
          level_distribution := value_counts skill_levels
          seniority_distribution := value_counts (skill_df.map (·.seniority))
          salary_stats :=
            if skill_salaries.isEmpty then none
            else some {
              count := skill_salaries.length
              mean := meanQ skill_salaries
              median := medianQ skill_salaries
              min := minQ skill_salaries
              max := maxQ skill_salaries
              std_sq := sampleVarOpt skill_salaries }
          top_companies := (value_counts (skill_df.map (·.company))).take 10
          top_cities := (value_counts (skill_df.map (·.city))).take 10 }
  if use_precomputed then
    match precomputed.lookup skill_name with
    | some a => some a
    | none => fallback
  else fallback

/-- The parameter list of `JobDataProcessor.process_json_data(self,
json_data, append_to_existing=False)`. -/
def process_json_data_param_names : List String := ["json_data", "append_to_existing"]

/-- The keyword arguments `api_add_data` passes:
`process_json_data(data, category=category, append_to_existing=True)`. -/
def api_call_kwarg_names : List String := ["category", "append_to_existing"]

/-- The Python exceptions distinguished by `api_add_data`'s handlers. -/
inductive PyError where
  | valueError (msg : String)
  | typeError (msg : String)
deriving Repr, DecidableEq

/-- The `processor.process_json_data(...)` call inside `api_add_data`.
Python raises `TypeError` before entering the callee whenever a keyword
argument does not name a formal parameter; only if every keyword matches
does the call proceed to the function body. -/
def call_process_json_data_kw (s : ProcState) (raw_cols : List String)
    (data : List Rec) : Except PyError ProcState :=
  if api_call_kwarg_names.all (fun k => process_json_data_param_names.contains k) then
    match process_json_data s raw_cols data true with
    | .ok s' => .ok s'
    | .error missing =>
      .error (.valueError ("Missing required columns: " ++ String.intercalate ", " missing))
  else
    .error (.typeError "process_json_data() got an unexpected keyword argument 'category'")

/-- The JSON reply of the `api_add_data` endpoint. -/
structure ApiResponse where
  status : Nat
  error : Option String := none
  total_records : Option Nat := none
  duplicates_removed : Option Nat := none
  new_records_added : Option Nat := none
deriving Repr, DecidableEq

/-- `api_add_data` (the processing block, after token/payload checks):
call `process_json_data` with the `category=` keyword, deduplicate the
returned frame against the stored category, and report counts.
`ValueError` maps to a 400 reply, any other exception (here the
`TypeError` from the keyword mismatch) to a 500 "Processing error". -/
def api_add_data (s : ProcState) (existing_categories : List (String × List Rec))
    (category : String) (data : List Rec) (raw_cols : List String) : ApiResponse :=
  match call_process_json_data_kw s raw_cols data with
  | .error (.valueError m) => { status := 400, error := some ("Data validation error: " ++ m) }
  | .error (.typeError m) => { status := 500, error := some ("Processing error: " ++ m) }
  | .ok s' =>
    let processed_df := get_data s'
    if processed_df.isEmpty then { status := 400, error := some "No valid data to process" }
    else
      let existing_df := (existing_categories.lookup category).getD []
      let unique_df := remove_duplicates processed_df existing_df
      let duplicates_count := processed_df.length - unique_df.length
      if unique_df.isEmpty then
        { status := 200, total_records := some data.length,
          duplicates_removed := some duplicates_count, new_records_added := some 0 }
      else
        { status := 200, total_records := some data.length,
          duplicates_removed := some duplicates_count,
          new_records_added := some unique_df.length }

/-- Counterexample record: category `x`. -/
def cexA : Rec := { role := "A", company := "Acme", city := "W", category := some "x" }

/-- Counterexample record: category `y`, distinct identity key. -/
def cexB : Rec := { role := "B", company := "Bcme", city := "K", category := some "y" }

/-- Five salaried records with identical `skillsCount` (and identical
seniority): both regression predictors are degenerate. -/
def regRecsC5 : List Rec :=
  [{ role := "R1", company := "C", city := "W", seniority := "Senior",
     skills := [("Go", "Senior"), ("SQL", "Regular")], salary_avg := some 10000 },
   { role := "R2", company := "C", city := "W", seniority := "Senior",
     skills := [("Go", "Senior"), ("SQL", "Regular")], salary_avg := some 12000 },
   { role := "R3", company := "C", city := "W", seniority := "Senior",
     skills := [("Go", "Senior"), ("SQL", "Regular")], salary_avg := some 14000 },
   { role := "R4", company := "C", city := "W", seniority := "Senior",
     skills := [("Go", "Senior"), ("SQL", "Regular")], salary_avg := some 16000 },
   { role := "R5", company := "C", city := "W", seniority := "Senior",
     skills := [("Go", "Senior"), ("SQL", "Regular")], salary_avg := some 18000 }]

/-- Six salaried records where `Go` appears in exactly three: the salary
correlation emits a coefficient for `Go`. -/
def corrRecsC9 : List Rec :=
  [{ role := "B1", company := "C", city := "W", skills := [("Go", "S"), ("SQL", "R")],
     salary_avg := some 10000 },
   { role := "B2", company := "C", city := "W", skills := [("Go", "S"), ("SQL", "R")],
     salary_avg := some 18000 },
   { role := "B3", company := "C", city := "W", skills := [("Go", "S"), ("SQL", "R")],
     salary_avg := some 17000 },
   { role := "B4", company := "C", city := "W", skills := [("SQL", "R")],
     salary_avg := some 9000 },
   { role := "B5", company := "C", city := "W", skills := [("SQL", "R")],
     salary_avg := some 8000 },
   { role := "B6", company := "C", city := "W", skills := [("SQL", "R")],
     salary_avg := some 7500 }]

/-- A record whose relevant analytic fields are all null: no skills, no
parsed salary. -/
def nullRec : Rec := { role := "R", company := "C", city := "W", seniority := "Senior" }

/-- Witness records for deduplication: `dupW1'` shares `dupW1`'s identity
key (same skill names at a different proficiency), `dupW2` differs. -/
def dupW1 : Rec := { role := "Dev", company := "Acme", city := "W", skills := [("Go", "Senior")] }

/-- Same identity key as `dupW1` (levels are excluded from the key). -/
def dupW1' : Rec := { role := "Dev", company := "Acme", city := "W", skills := [("Go", "Expert")] }

/-- A record with a different identity key. -/
def dupW2 : Rec := { role := "Ops", company := "Acme", city := "W", skills := [("K8s", "Senior")] }

/-! ## String-normalisation lemmas -/

theorem char_eq_of_toNat_eq {c d : Char} (h : c.toNat = d.toNat) : c = d :=
  Char.ext_iff.mpr (UInt32.ext_iff.mpr h)

theorem mem_of_toNat {L : List Char} (c : Char) (n : Nat) (hn : c.toNat = n)
    (hv : (Char.ofNat n).toNat = n) (h : Char.ofNat n ∈ L) : c ∈ L := by
  have : c = Char.ofNat n := char_eq_of_toNat_eq (by rw [hn, hv])
  rw [this]; exact h

theorem lowerChar_cases (c : Char) (h : 65 ≤ c.toNat ∧ c.toNat ≤ 90) :
    c ∈ ['A', 'B', 'C', 'D', 'E', 'F', 'G', 'H', 'I', 'J', 'K', 'L', 'M',
         'N', 'O', 'P', 'Q', 'R', 'S', 'T', 'U', 'V', 'W', 'X', 'Y', 'Z'] := by
  obtain ⟨n, hn⟩ : ∃ n, c.toNat = n := ⟨_, rfl⟩
  rw [hn] at h
  obtain ⟨h1, h2⟩ := h
  interval_cases n <;> exact mem_of_toNat c _ hn (by decide) (by decide)

theorem lowerChar_idem (c : Char) : lowerChar (lowerChar c) = lowerChar c := by
  by_cases h : 65 ≤ c.toNat ∧ c.toNat ≤ 90
  · have := lowerChar_cases c h
    fin_cases this <;> decide
  · have hc : lowerChar c = c := by unfold lowerChar; rw [if_neg h]
    rw [hc]; exact hc

theorem isSpaceP_lowerChar (c : Char) : isSpaceP (lowerChar c) = isSpaceP c := by
  by_cases h : 65 ≤ c.toNat ∧ c.toNat ≤ 90
  · have := lowerChar_cases c h
    fin_cases this <;> decide
  · have hc : lowerChar c = c := by unfold lowerChar; rw [if_neg h]
    rw [hc]

theorem pyLowerL_idem (l : List Char) : pyLowerL (pyLowerL l) = pyLowerL l := by
  induction l with
  | nil => rfl
  | cons c cs ih =>
    simp only [pyLowerL, List.map_cons] at *
    rw [lowerChar_idem]
    exact congrArg _ (by simpa [pyLowerL] using ih)

theorem dropWhile_pyLowerL (l : List Char) :
    (pyLowerL l).dropWhile isSpaceP = pyLowerL (l.dropWhile isSpaceP) := by
  induction l with
  | nil => rfl
  | cons c cs ih =>
    simp only [pyLowerL, List.map_cons, List.dropWhile_cons, isSpaceP_lowerChar]
    by_cases h : isSpaceP c
    · simpa [h, pyLowerL] using ih
    · simp [h, pyLowerL]

theorem pyLowerL_reverse (l : List Char) :
    pyLowerL l.reverse = (pyLowerL l).reverse := by
  simp [pyLowerL, List.map_reverse]

theorem pyRstripL_pyLowerL (l : List Char) :
    pyRstripL (pyLowerL l) = pyLowerL (pyRstripL l) := by
  calc (List.dropWhile isSpaceP (pyLowerL l).reverse).reverse
      = (List.dropWhile isSpaceP (pyLowerL l.reverse)).reverse := by
        rw [pyLowerL_reverse]
    _ = (pyLowerL (List.dropWhile isSpaceP l.reverse)).reverse := by
        rw [dropWhile_pyLowerL]
    _ = pyLowerL ((List.dropWhile isSpaceP l.reverse).reverse) := by
        rw [pyLowerL_reverse]

theorem pyStripL_pyLowerL (l : List Char) :
    pyStripL (pyLowerL l) = pyLowerL (pyStripL l) := by
  simp only [pyStripL]
  rw [dropWhile_pyLowerL, pyRstripL_pyLowerL]

theorem dropWhile_head_not {p : Char → Bool} {l : List Char} (h : l.dropWhile p = l) :
    ∀ c cs, l = c :: cs → p c = false := by
  intro c cs hl
  subst hl
  by_contra hc
  simp only [List.dropWhile_cons] at h
  rw [if_pos (by simpa using Bool.of_not_eq_false hc)] at h
  have := congrArg List.length h
  have hle := (List.dropWhile_sublist (l := cs) p).length_le
  simp at this
  omega

theorem pyRstripL_sub (l : List Char) : ∃ t, pyRstripL l ++ t = l := by
  obtain ⟨u, hu⟩ := (List.dropWhile_suffix (l := l.reverse) isSpaceP)
  refine ⟨u.reverse, ?_⟩
  have := congrArg List.reverse hu
  simpa [pyRstripL] using this

theorem dropWhile_pyRstripL {l : List Char} (h : l.dropWhile isSpaceP = l) :
    (pyRstripL l).dropWhile isSpaceP = pyRstripL l := by
  obtain ⟨t, ht⟩ := pyRstripL_sub l
  cases hx : pyRstripL l with
  | nil => rfl
  | cons c cs =>
    have hl : l = c :: (cs ++ t) := by rw [← ht, hx]; simp
    have hc := dropWhile_head_not h c (cs ++ t) hl
    simp [List.dropWhile_cons, hc]

theorem pyRstripL_idem (l : List Char) : pyRstripL (pyRstripL l) = pyRstripL l := by
  simp [pyRstripL, List.reverse_reverse, List.dropWhile_idempotent]

theorem pyStripL_idem (l : List Char) : pyStripL (pyStripL l) = pyStripL l := by
  simp only [pyStripL]
  rw [dropWhile_pyRstripL (List.dropWhile_idempotent _ _), pyRstripL_idem]

theorem pyNorm_idem (s : String) : pyNorm (pyNorm s) = pyNorm s := by
  simp only [pyNorm, pyStrip, pyLower]
  congr 1
  show pyStripL (pyLowerL (pyStripL (pyLowerL s.data))) = pyStripL (pyLowerL s.data)
  rw [pyStripL_pyLowerL, pyStripL_idem, ← pyStripL_pyLowerL, pyLowerL_idem]

/-! ## Deduplication -/

theorem create_key_with_category (r : Rec) (c : Option String) :
    create_key { r with category := c } = create_key r := rfl

theorem remove_duplicates_nil (c : List Rec) : remove_duplicates c [] = c := rfl

theorem remove_duplicates_eq_filter (c e : List Rec) :
    remove_duplicates c e
      = c.filter (fun r => !((e.map create_key).contains (create_key r))) := by
  unfold remove_duplicates
  by_cases he : e.isEmpty
  · rw [if_pos he]
    have : e = [] := by simpa [List.isEmpty_iff] using he
    subst this
    simp
  · rw [if_neg he]

theorem remove_duplicates_sublist (c e : List Rec) :
    (remove_duplicates c e).Sublist c := by
  rw [remove_duplicates_eq_filter]; exact List.filter_sublist _

theorem mem_remove_duplicates {c e : List Rec} {r : Rec} :
    r ∈ remove_duplicates c e ↔ r ∈ c ∧ ∀ x ∈ e, create_key x ≠ create_key r := by
  rw [remove_duplicates_eq_filter, List.mem_filter]
  simp [List.mem_map]

/-- C6: deduplication returns exactly the candidates whose identity key —
the lowercased concatenation of role, company, city and the sorted
`|`-joined skill names, levels excluded — does not occur among the
existing records, preserving candidate order (a sublist), and returns the
candidates unchanged when the existing set is empty. -/
theorem dedupe_functional_spec (c e : List Rec) :
    (∀ r, r ∈ remove_duplicates c e ↔
        r ∈ c ∧ ∀ x ∈ e, create_key x ≠ create_key r) ∧
    (remove_duplicates c e).Sublist c ∧
    (e = [] → remove_duplicates c e = c) :=
  ⟨fun _ => mem_remove_duplicates, remove_duplicates_sublist c e,
   fun h => h ▸ remove_duplicates_nil c⟩

/-- Witness for `dedupe_functional_spec` on concrete records: the empty
existing set is a no-op, a fresh key survives, and a record whose skill
names match an existing record (levels differ) is dropped. -/
theorem dedupe_functional_spec_witness :
    remove_duplicates [dupW1, dupW2] [] = [dupW1, dupW2] ∧
    dupW2 ∈ remove_duplicates [dupW1, dupW2] [dupW1'] ∧
    dupW1 ∉ remove_duplicates [dupW1, dupW2] [dupW1'] :=
  ⟨(dedupe_functional_spec [dupW1, dupW2] []).2.2 rfl,
   ((dedupe_functional_spec [dupW1, dupW2] [dupW1']).1 dupW2).mpr
     ⟨by decide, by decide⟩,
   fun h =>
     ((((dedupe_functional_spec [dupW1, dupW2] [dupW1']).1 dupW1).mp h).2
       dupW1' (by decide)) (by decide)⟩

/-! ## Within-batch duplicates (C10) -/

/-- C10: duplicate filtering only compares the batch against previously
stored records, never within a batch: when no record of the batch
collides with a stored key, the whole batch (including records that
duplicate each other) is appended to the full table. -/
theorem batch_internal_duplicates_stored (s : ProcState) (batch : List Rec)
    (h : ∀ r ∈ batch, create_key r ∉ (get_data s).map create_key) :
    get_data (process_json_data_merge s batch true)
      = get_data s ++ set_categories batch := by
  unfold process_json_data_merge
  cases hdf : s.df with
  | none => simp [get_data, hdf]
  | some existing =>
    simp only [get_data, hdf, Option.getD_some]
    have : remove_duplicates (set_categories batch) existing = set_categories batch := by
      rw [remove_duplicates_eq_filter]
      apply List.filter_eq_self.mpr
      intro r hr
      obtain ⟨r0, hr0, rfl⟩ := by
        simpa [set_categories, List.mem_map] using hr
      have hk : create_key r0 ∉ existing.map create_key := by
        have := h r0 hr0
        simpa [get_data, hdf] using this
      simpa [create_key_with_category] using hk
    rw [this]

/-- Witness for `batch_internal_duplicates_stored`: ingesting a batch of
two records with equal identity keys into the fresh store keeps both, so
the stored dataset holds two records with the same key. -/
theorem batch_internal_duplicates_stored_witness :
    get_data (process_json_data_merge initState [dupW1, dupW1'] true)
      = get_data initState ++ set_categories [dupW1, dupW1'] ∧
    create_key dupW1 = create_key dupW1' :=
  ⟨batch_internal_duplicates_stored initState [dupW1, dupW1'] (by decide), by decide⟩

/-! ## Empty-input behaviour of the aggregation functions (C2) -/

/-- C2 counterexample: the claim says every aggregation function returns
an empty result on an empty record set and never raises, but
`get_market_summary` has no empty-input guard — on the canonical empty
frame (no rows, hence no columns) `df['company'].nunique()` raises
`KeyError`. -/
theorem market_summary_empty_raises :
    get_market_summary [] = Except.error "KeyError: company" := rfl

/-- C2 (amended): every aggregation function except `get_market_summary`
— skill frequency, skill combinations, skill weight analysis, regression,
correlation, and the per-skill analytics bundle — returns an empty result
structure and (being total) never raises, both on the empty record set
and on a record set whose relevant fields are all null (all `salary_avg`
null for the salary-based functions; all skill dictionaries empty for the
skill-based ones).  `get_market_summary` alone has no empty-input guard
and raises a `KeyError` on the empty record set. -/
theorem aggregations_empty_input :
    (get_skills_statistics [] = [] ∧
     (∀ min_frequency, get_skill_combinations [] min_frequency = []) ∧
     get_skill_weight_analysis [] = [] ∧
     (∀ target_skill, get_regression_analysis [] target_skill = []) ∧
     precompute_salary_correlation [] = [] ∧
     (∀ sk pre, get_skill_detailed_analytics sk [] pre false = none)) ∧
    (∀ rows : List Rec, (∀ r ∈ rows, r.salary_avg = none) →
      (∀ target_skill, get_regression_analysis rows target_skill = []) ∧
      precompute_salary_correlation rows = []) ∧
    (∀ rows : List Rec, (∀ r ∈ rows, r.skills = []) →
      get_skills_statistics rows = [] ∧
      (∀ min_frequency, get_skill_combinations rows min_frequency = []) ∧
      get_skill_weight_analysis rows = [] ∧
      (∀ sk pre, get_skill_detailed_analytics sk rows pre false = none)) ∧
    get_market_summary [] = Except.error "KeyError: company" := by
  refine ⟨⟨rfl, fun _ => rfl, rfl, fun _ => rfl, rfl, fun _ _ => rfl⟩, ?_, ?_, rfl⟩
  · intro rows h
    have hsal : rows.filter (fun r => r.salary_avg.isSome) = [] :=
      List.filter_eq_nil_iff.mpr (fun r hr => by simp [h r hr])
    constructor
    · intro ts
      unfold get_regression_analysis
      by_cases hr : rows.isEmpty
      · rw [if_pos hr]
      · rw [if_neg hr, hsal]
        rw [if_pos (by simp)]
    · unfold precompute_salary_correlation
      rw [hsal]
      rw [if_pos (by simp)]
  · intro rows h
    have hreq : ∀ r ∈ rows, requiredSkills r = [] := fun r hr => by
      simp [requiredSkills, h r hr]
    have hflat : (rows.map requiredSkills).flatten = [] := by
      rw [List.flatten_eq_nil_iff]
      intro l hl
      obtain ⟨r, hr, rfl⟩ := List.mem_map.mp hl
      exact hreq r hr
    have hall : get_all_skills_list rows = [] := by
      unfold get_all_skills_list
      by_cases hr : rows.isEmpty
      · rw [if_pos hr]
      · rw [if_neg hr, hflat]
        rfl
    refine ⟨?_, ?_, ?_, ?_⟩
    · unfold get_skills_statistics
      by_cases hr : rows.isEmpty
      · rw [if_pos hr]
      · rw [if_neg hr, hflat]
        rfl
    · intro mf
      unfold get_skill_combinations
      by_cases hr : rows.isEmpty
      · rw [if_pos hr]
      · rw [if_neg hr]
        have hcomb : (rows.map fun r =>
            if 2 ≤ (requiredSkills r).length then pairCombos (sortStrings (requiredSkills r))
            else []).flatten = [] := by
          rw [List.flatten_eq_nil_iff]
          intro l hl
          obtain ⟨r, hr2, rfl⟩ := List.mem_map.mp hl
          rw [hreq r hr2]
          rfl
        simp [hcomb]
    · unfold get_skill_weight_analysis
      by_cases hr : rows.isEmpty
      · rw [if_pos hr]
      · rw [if_neg hr]
        have hsk : (rows.map fun r => r.skills).flatten = [] := by
          rw [List.flatten_eq_nil_iff]
          intro l hl
          obtain ⟨r, hr2, rfl⟩ := List.mem_map.mp hl
          exact h r hr2
        rw [hsk]
        rfl
    · intro sk pre
      unfold get_skill_detailed_analytics
      simp [hall]

/-- Witness for `aggregations_empty_input` on a record whose relevant
fields are all null (no skills, no parsed salary). -/
theorem aggregations_empty_input_witness :
    get_regression_analysis [nullRec] none = [] ∧
    precompute_salary_correlation [nullRec] = [] ∧
    get_skills_statistics [nullRec] = [] ∧
    get_skill_detailed_analytics "Go" [nullRec] [] false = none :=
  ⟨(aggregations_empty_input.2.1 [nullRec] (by decide)).1 none,
   (aggregations_empty_input.2.1 [nullRec] (by decide)).2,
   (aggregations_empty_input.2.2.1 [nullRec] (by decide)).1,
   (aggregations_empty_input.2.2.1 [nullRec] (by decide)).2.2.2 "Go" []⟩

/-! ## Salary parsing: concrete scenarios (C8) -/

theorem parse_salary_range_example :
    parse_salary "10 000 - 16 000 PLN" =
      { salary_min := some 10000, salary_max := some 16000,
        salary_avg := some 13000, salary_currency := some "PLN" } := by
  have hn : numbersOf "10 000 - 16 000 PLN" = [10000, 16000] := by decide
  have hc : findCurrency (pyStripL "10 000 - 16 000 PLN".data) = some "PLN" := by decide
  simp only [parse_salary, hn, hc, Option.getD_some, hourlyAdjust]
  norm_num

theorem parse_salary_single_example :
    parse_salary "80 PLN" =
      { salary_min := some 13440, salary_max := some 13440,
        salary_avg := some 13440, salary_currency := some "PLN" } := by
  have hn : numbersOf "80 PLN" = [80] := by decide
  have hc : findCurrency (pyStripL "80 PLN".data) = some "PLN" := by decide
  simp only [parse_salary, hn, hc, Option.getD_some, hourlyAdjust]
  norm_num

/-- C8: `"10 000 - 16 000 PLN"` parses to min 10000, max 16000, avg 13000,
currency `PLN`; `"80 PLN"` is below the 300 threshold, is read as an
hourly rate, and yields `80·168 = 13440` in all three fields. -/
theorem salary_concrete_scenarios :
    parse_salary "10 000 - 16 000 PLN" =
      { salary_min := some 10000, salary_max := some 16000,
        salary_avg := some 13000, salary_currency := some "PLN" } ∧
    parse_salary "80 PLN" =
      { salary_min := some 13440, salary_max := some 13440,
        salary_avg := some 13440, salary_currency := some "PLN" } :=
  ⟨parse_salary_range_example, parse_salary_single_example⟩

/-! ## The `api_add_data` ingestion endpoint (C7) -/

/-- C7 (code bug): every call of `api_add_data` passes
`category=category` to `process_json_data`, whose parameter list is
`(json_data, append_to_existing)`; Python therefore raises `TypeError`
before the ingestion body runs, the generic handler converts it into a
500 "Processing error" reply, and no duplicate/inserted counts are ever
reported — in particular re-ingesting a batch cannot report
`duplicate_count == len(batch)`. -/
theorem api_add_data_always_type_errors (s : ProcState)
    (existing_categories : List (String × List Rec)) (category : String)
    (data : List Rec) (raw_cols : List String) :
    api_add_data s existing_categories category data raw_cols =
      { status := 500,
        error := some ("Processing error: process_json_data() got an unexpected keyword argument 'category'") } := rfl

/-! ## The salary field invariant (C4) -/

theorem hourlyAdjust_bound (a : ℕ) :
    300 ≤ ((hourlyAdjust a : ℕ) : ℚ) ∨
    ∃ k : ℕ, (k : ℚ) < 300 ∧ ((hourlyAdjust a : ℕ) : ℚ) = (k : ℚ) * 168 := by
  unfold hourlyAdjust
  by_cases h : a < 300
  · right
    exact ⟨a, by exact_mod_cast h, by rw [if_pos h]; push_cast; ring⟩
  · left
    rw [if_neg h]
    exact_mod_cast Nat.le_of_not_lt h

/-- C4 counterexample: `"200 - 400 PLN"` parses to a non-null triple, yet
`salary_min = 33600 > salary_avg = 17000`: the first token (200) is
hourly-converted while the second (400) is not, so the claimed
`salary_min ≤ salary_avg ≤ salary_max` invariant fails. -/
theorem salary_invariant_cex :
    parse_salary "200 - 400 PLN" =
      { salary_min := some 33600, salary_max := some 400,
        salary_avg := some 17000, salary_currency := some "PLN" } ∧
    ¬((33600 : ℚ) ≤ 17000) := by
  constructor
  · have hn : numbersOf "200 - 400 PLN" = [200, 400] := by decide
    have hc : findCurrency (pyStripL "200 - 400 PLN".data) = some "PLN" := by decide
    simp only [parse_salary, hn, hc, Option.getD_some, hourlyAdjust]
    norm_num
  · norm_num

/-- C4 (amended): whenever all three salary fields parse non-null,
`salary_avg = (salary_min + salary_max)/2` (so the midpoint law holds
after the per-field hourly conversion), the ordering
`salary_min ≤ salary_avg ≤ salary_max` holds *provided*
`salary_min ≤ salary_max` (a reversed textual range or a one-sided hourly
conversion can break it), a single parsed token forces
`salary_min = salary_max`, and each bound is the hourly-adjusted image of
a parsed integer: either at least 300, or exactly `k·168` for some
`k < 300` (the conversion applied once). -/
theorem parse_salary_bounds (s : String) (mn mx av : ℚ) (cur : String)
    (h : parse_salary s = { salary_min := some mn, salary_max := some mx,
                            salary_avg := some av, salary_currency := some cur }) :
    av = (mn + mx) / 2 ∧
    (mn ≤ mx → mn ≤ av ∧ av ≤ mx) ∧
    ((numbersOf s).length = 1 → mn = mx) ∧
    (300 ≤ mn ∨ ∃ k : ℕ, (k : ℚ) < 300 ∧ mn = (k : ℚ) * 168) ∧
    (300 ≤ mx ∨ ∃ k : ℕ, (k : ℚ) < 300 ∧ mx = (k : ℚ) * 168) := by
  cases hn : numbersOf s with
  | nil => simp [parse_salary, hn] at h
  | cons n1 tl =>
    cases tl with
    | nil =>
      simp only [parse_salary, hn, SalaryFields.mk.injEq, Option.some.injEq] at h
      obtain ⟨h1, h2, h3, -⟩ := h
      subst h1; subst h2; subst h3
      refine ⟨by ring, fun _ => ⟨by linarith, by linarith⟩, fun _ => rfl, ?_, ?_⟩ <;>
        exact hourlyAdjust_bound n1
    | cons n2 rest =>
      simp only [parse_salary, hn, SalaryFields.mk.injEq, Option.some.injEq] at h
      obtain ⟨h1, h2, h3, -⟩ := h
      subst h1; subst h2; subst h3
      refine ⟨rfl, fun hle => ⟨by linarith, by linarith⟩, ?_, ?_, ?_⟩
      · intro hlen
        simp at hlen
      · exact hourlyAdjust_bound n1
      · exact hourlyAdjust_bound n2

/-- Witness for `parse_salary_bounds` at `"10 000 - 16 000 PLN"`. -/
theorem parse_salary_bounds_witness :
    (13000 : ℚ) = (10000 + 16000) / 2 ∧ (10000 : ℚ) ≤ 13000 ∧ (13000 : ℚ) ≤ 16000 := by
  have h := parse_salary_bounds "10 000 - 16 000 PLN" 10000 16000 13000 "PLN"
    parse_salary_range_example
  exact ⟨h.1, h.2.1 (by norm_num)⟩

/-! ## Column validation (C3) -/

theorem lookup_field_mapping {x v : String} (h : field_mapping.lookup x = some v) :
    v = x := by
  simp only [field_mapping, List.lookup] at h
  repeat' split at h
  all_goals simp_all

theorem mem_normalize_column_names {raw_cols : List String} {c : String}
    (hc : c ∈ required_columns) :
    c ∈ normalize_column_names raw_cols ↔ ∃ r ∈ raw_cols, pyNorm r = c := by
  unfold normalize_column_names
  rw [List.mem_map]
  constructor
  · rintro ⟨r, hr, heq⟩
    refine ⟨r, hr, ?_⟩
    cases hfm : field_mapping.lookup (pyNorm r) with
    | some v =>
      rw [hfm] at heq
      simp only at heq
      rw [heq] at hfm
      exact (lookup_field_mapping hfm).symm
    | none =>
      rw [hfm] at heq
      simp only at heq
      subst heq
      fin_cases hc <;> decide
  · rintro ⟨r, hr, heq⟩
    refine ⟨r, hr, ?_⟩
    rw [heq]
    fin_cases hc <;> simp [field_mapping, List.lookup]

/-- `l.contains a` agrees with membership for strings. -/
theorem contains_true_iff {l : List String} {a : String} :
    l.contains a = true ↔ a ∈ l := by
  simp [List.contains, List.elem_iff]

/-- C3 counterexample: the batch whose columns are
`title, company, city, seniority, skills` contains the claimed legacy
alias `title` for `role`, so by the claim's variant table nothing is
missing (`specMissing = []`) and validation must pass — but
`_normalize_column_names` maps no aliases, so the code raises naming
`role` as missing. -/
theorem legacy_alias_validation_cex :
    validate_columns ["title", "company", "city", "seniority", "skills"]
      = Except.error ["role"] ∧
    specMissing ["title", "company", "city", "seniority", "skills"] = [] :=
  ⟨rfl, by decide⟩

/-- C3 (amended): field-name matching is case-insensitive (lower/strip)
but accepts only the canonical names — no legacy aliases.  Validation
passes iff every canonical required column appears (up to lower/strip)
among the raw columns; otherwise it raises a nonempty error naming
exactly the required columns with no such match; and a nonempty batch
failing validation is rejected before any record is ingested. -/
theorem validation_canonical_columns (raw_cols : List String) :
    (validate_columns raw_cols = Except.ok () ↔
      ∀ c ∈ required_columns, ∃ r ∈ raw_cols, pyNorm r = c) ∧
    (∀ m, validate_columns raw_cols = Except.error m →
      m ≠ [] ∧ ∀ c, c ∈ m ↔ c ∈ required_columns ∧ ¬∃ r ∈ raw_cols, pyNorm r = c) ∧
    (∀ s batch append m, batch ≠ ([] : List Rec) →
      validate_columns raw_cols = Except.error m →
      process_json_data s raw_cols batch append = Except.error m) := by
  refine ⟨?_, ?_, ?_⟩
  · unfold validate_columns missing_columns
    by_cases hm : (required_columns.filter
        fun c => !((normalize_column_names raw_cols).contains c)).isEmpty
    · rw [if_pos hm]
      refine ⟨fun _ c hc => ?_, fun _ => rfl⟩
      rw [List.isEmpty_iff, List.filter_eq_nil_iff] at hm
      have h2 := hm c hc
      simp only [Bool.not_eq_true', Bool.not_eq_false] at h2
      rw [contains_true_iff] at h2
      exact (mem_normalize_column_names hc).mp h2
    · rw [if_neg hm]
      refine ⟨fun h => absurd h (by simp), fun hall => absurd ?_ hm⟩
      rw [List.isEmpty_iff, List.filter_eq_nil_iff]
      intro c hc
      simp only [Bool.not_eq_true', Bool.not_eq_false]
      rw [contains_true_iff]
      exact (mem_normalize_column_names hc).mpr (hall c hc)
  · intro m hm
    unfold validate_columns at hm
    by_cases he : (missing_columns (normalize_column_names raw_cols)).isEmpty
    · rw [if_pos he] at hm; exact absurd hm (by simp)
    · rw [if_neg he] at hm
      injection hm with hm
      subst hm
      refine ⟨by simpa [List.isEmpty_iff] using he, ?_⟩
      intro c
      unfold missing_columns
      rw [List.mem_filter]
      constructor
      · rintro ⟨hc, hnc⟩
        refine ⟨hc, ?_⟩
        simp only [Bool.not_eq_true'] at hnc
        rw [← mem_normalize_column_names hc]
        intro hmem
        have hct := contains_true_iff.mpr hmem
        rw [hnc] at hct
        exact Bool.false_ne_true hct
      · rintro ⟨hc, hnc⟩
        refine ⟨hc, ?_⟩
        simp only [Bool.not_eq_true']
        rw [← mem_normalize_column_names hc] at hnc
        rw [Bool.eq_false_iff]
        intro hct
        exact hnc (contains_true_iff.mp hct)
  · intro s batch append m hb hm
    unfold process_json_data
    rw [if_neg (by simpa [List.isEmpty_iff] using hb), hm]

/-- Witness for `validation_canonical_columns`: case-insensitive matches
of the canonical names validate successfully. -/
theorem validation_canonical_columns_witness :
    validate_columns ["Role ", "COMPANY", "city", "Seniority", "skills", "extra"]
      = Except.ok () :=
  (validation_canonical_columns _).1.mpr (by decide)

/-! ## Regression analysis (C5) -/

/-- C5 counterexample: five salaried records all with two skills: the
skills-count predictor has zero variance, and — contrary to the claim —
the result simply omits the `skills_count` entry rather than emitting
`slope = 0, intercept = mean(y), r² = 0` (which only the seniority branch
does, as the same input's `seniority` entry shows). -/
theorem regression_degenerate_cex :
    (get_regression_analysis regRecsC5 none).lookup "skills_count" = none ∧
    (get_regression_analysis regRecsC5 none).lookup "seniority" =
      some (RegEntry.linear
        { slope := 0, intercept := 14000, r_squared := 0, data_points := 5 }) ∧
    (regRecsC5.filter fun r => r.salary_avg.isSome).length = 5 := by
  refine ⟨?_, ?_, ?_⟩ <;> with_unfolding_all rfl

theorem zipWith_const_right {α : Type} (g : ℚ → ℚ) :
    ∀ (l : List ℚ) (l' : List α), l.length = l'.length →
      List.zipWith (fun a (_ : α) => g a) l l' = l.map g
  | [], [], _ => rfl
  | [], _ :: _, h => by simp at h
  | _ :: _, [], h => by simp at h
  | a :: l, b :: l', h => by
    simp only [List.zipWith_cons_cons, List.map_cons]
    exact congrArg _ (zipWith_const_right g l l' (by simpa using h))

theorem skill_key_ne (sk : String) : ("skills_count" : String) ≠ "skill_" ++ sk := by
  intro h
  have hd := congrArg String.data h
  rw [String.data_append] at hd
  have hd' : ['s', 'k', 'i', 'l', 'l', 's', '_', 'c', 'o', 'u', 'n', 't']
      = ['s', 'k', 'i', 'l', 'l', '_'] ++ sk.data := hd
  simp at hd'

theorem olsFit_degenerate {x y : List ℚ} (hlen : x.length = y.length)
    (hden : (x.length : ℚ) * dotQ x x - x.sum * x.sum = 0) :
    olsFit x y = { slope := 0, intercept := meanQ y, r_squared := 0,
                   data_points := x.length } := by
  have hpred : List.zipWith (fun yi pi => (yi - pi) ^ 2) y
      (x.map fun xi => (0 : ℚ) * xi + y.sum / (x.length : ℚ))
      = y.map fun yi => (yi - y.sum / (x.length : ℚ)) ^ 2 := by
    rw [List.zipWith_map_right]
    simp only [zero_mul, zero_add]
    exact zipWith_const_right _ y x hlen.symm
  unfold olsFit
  simp only []
  rw [if_neg (by simpa using hden), if_neg (by simpa using hden), hpred]
  have hrsq : (if 0 < (y.map fun yi => (yi - y.sum / (x.length : ℚ)) ^ 2).sum
      then 1 - (y.map fun yi => (yi - y.sum / (x.length : ℚ)) ^ 2).sum
              / (y.map fun yi => (yi - y.sum / (x.length : ℚ)) ^ 2).sum
      else (0 : ℚ)) = 0 := by
    split
    · rw [div_self (by positivity)]
      ring
    · rfl
  rw [hrsq]
  unfold meanQ
  rw [hlen]

/-- C5 (amended): with fewer than 5 salaried records the regression
returns the empty mapping (and, being total, never raises).  With ≥ 5,
the `seniority` entry is always present and is the `olsFit` of the
seniority ordinals against salary — where `olsFit` yields the closed-form
OLS slope and intercept when the denominator `n·Σx² − (Σx)²` is nonzero,
and `slope = 0, intercept = mean(y), r² = 0` when it is zero.  The
`skills_count` entry, by contrast, is present exactly when its
denominator is nonzero: a degenerate skills-count predictor is omitted,
not emitted with a zero slope. -/
theorem regression_analysis_amended (rows : List Rec) (ts : Option String) :
    ((rows.filter fun r => r.salary_avg.isSome).length < 5 →
      get_regression_analysis rows ts = []) ∧
    (5 ≤ (rows.filter fun r => r.salary_avg.isSome).length →
      (get_regression_analysis rows ts).lookup "seniority"
        = some (RegEntry.linear (olsFit
            ((rows.filter fun r => r.salary_avg.isSome).map seniorityNumeric)
            ((rows.filter fun r => r.salary_avg.isSome).map fun r => r.salary_avg.getD 0))) ∧
      (get_regression_analysis rows ts).lookup "skills_count"
        = (if dotQ ((rows.filter fun r => r.salary_avg.isSome).map fun r => (skillsCount r : ℚ))
                 ((rows.filter fun r => r.salary_avg.isSome).map fun r => (skillsCount r : ℚ))
             - ((rows.filter fun r => r.salary_avg.isSome).map fun r => (skillsCount r : ℚ)).sum
               * ((rows.filter fun r => r.salary_avg.isSome).map fun r => (skillsCount r : ℚ)).sum
               / ((rows.filter fun r => r.salary_avg.isSome).length : ℚ) = 0
           then none
           else some (RegEntry.linear (olsFit
             ((rows.filter fun r => r.salary_avg.isSome).map fun r => (skillsCount r : ℚ))
             ((rows.filter fun r => r.salary_avg.isSome).map fun r => r.salary_avg.getD 0))))) ∧
    (∀ x yy : List ℚ, x.length = yy.length →
      ((x.length : ℚ) * dotQ x x - x.sum * x.sum = 0 →
        olsFit x yy = { slope := 0, intercept := meanQ yy, r_squared := 0,
                        data_points := x.length }) ∧
      ((x.length : ℚ) * dotQ x x - x.sum * x.sum ≠ 0 →
        (olsFit x yy).slope
          = ((x.length : ℚ) * dotQ x yy - x.sum * yy.sum)
            / ((x.length : ℚ) * dotQ x x - x.sum * x.sum) ∧
        (olsFit x yy).intercept
          = (yy.sum - (((x.length : ℚ) * dotQ x yy - x.sum * yy.sum)
              / ((x.length : ℚ) * dotQ x x - x.sum * x.sum)) * x.sum)
            / (x.length : ℚ))) := by
  refine ⟨?_, ?_, ?_⟩
  · intro h5
    unfold get_regression_analysis
    by_cases hr : rows.isEmpty
    · rw [if_pos hr]
    · rw [if_neg hr]
      have hc : ((rows.filter fun r => r.salary_avg.isSome).isEmpty
          || decide ((rows.filter fun r => r.salary_avg.isSome).length < 5)) = true := by
        simp [h5]
      rw [if_pos hc]
  · intro h5
    have hrow : rows.isEmpty = false := by
      cases hrows : rows with
      | nil => subst hrows; simp at h5
      | cons a l => rfl
    unfold get_regression_analysis
    rw [if_neg (by simp [hrow])]
    have hc : ((rows.filter fun r => r.salary_avg.isSome).isEmpty
        || decide ((rows.filter fun r => r.salary_avg.isSome).length < 5)) = false := by
      have : (rows.filter fun r => r.salary_avg.isSome) ≠ [] := by
        intro hnil; rw [hnil] at h5; simp at h5
      simp [this, Nat.not_lt.mpr h5]
    rw [if_neg (by simp [hc])]
    simp only []
    refine ⟨by simp [List.lookup], ?_⟩
    set salq := rows.filter fun r => r.salary_avg.isSome with hsalq
    set x2v := salq.map fun r => (skillsCount r : ℚ) with hx2
    have hkey : ∀ (b : RegEntry) (es : List (String × RegEntry)),
        List.lookup "skills_count" (("seniority", b) :: es)
          = List.lookup "skills_count" es := by
      intro b es; simp [List.lookup]
    rw [List.singleton_append, List.cons_append, hkey]
    by_cases hD : dotQ x2v x2v - x2v.sum * x2v.sum / (salq.length : ℚ) = 0
    · rw [if_pos hD, if_neg (not_not_intro hD), List.nil_append]
      cases ts with
      | none => rfl
      | some sk =>
        simp only []
        by_cases hg : 3 ≤ (salq.map fun r =>
            if (requiredSkills r).contains sk = true then (1 : ℚ) else 0).length ∧
          3 ≤ (salq.map fun r =>
            if (requiredSkills r).contains sk = true then (1 : ℚ) else 0).sum
        · rw [if_pos hg]
          simp only [List.lookup]
          rw [show ("skills_count" == "skill_" ++ sk) = false from
            beq_eq_false_iff_ne.mpr (skill_key_ne sk)]
        · rw [if_neg hg]; rfl
    · rw [if_neg hD, if_pos hD, List.singleton_append]
      simp [List.lookup]
  · intro x yy hlen
    refine ⟨olsFit_degenerate hlen, fun hden => ?_⟩
    unfold olsFit
    simp only []
    rw [if_pos hden, if_pos hden]
    exact ⟨rfl, rfl⟩

/-- Witness for `regression_analysis_amended`: the empty record set has
fewer than 5 salaried records, so regression returns the empty result. -/
theorem regression_analysis_amended_witness :
    get_regression_analysis [] none = [] :=
  (regression_analysis_amended [] none).1 (by decide)

/-! ## Salary correlation (C9) -/

theorem sum_indicator_count (l : List Rec) (P : Rec → Bool) :
    (l.map fun r => if P r then (1 : ℚ) else 0).sum = ((l.filter P).length : ℚ) := by
  induction l with
  | nil => simp
  | cons a t ih =>
    by_cases h : P a
    · simp [h, ih]; ring
    · simp [h, ih]

theorem corrVar_nonneg (x : List ℚ) : 0 ≤ corrVar x := by
  unfold corrVar
  apply List.sum_nonneg
  intro q hq
  obtain ⟨a, -, rfl⟩ := List.mem_map.mp hq
  positivity

theorem zip_mul_sum_eq (u : List ℚ) :
    ∀ v : List ℚ, u.length = v.length →
      (List.zipWith (· * ·) u v).sum
        = ∑ i ∈ Finset.range u.length, u.getD i 0 * v.getD i 0 := by
  induction u with
  | nil => intro v h; simp
  | cons a tu ih =>
    intro v h
    cases v with
    | nil => simp at h
    | cons b tv =>
      rw [List.zipWith_cons_cons, List.sum_cons, List.length_cons,
        Finset.sum_range_succ']
      simp only [List.getD_cons_succ, List.getD_cons_zero]
      rw [ih tv (by simpa using h)]
      ring

theorem map_sq_sum_eq (u : List ℚ) :
    (u.map fun a => a ^ 2).sum = ∑ i ∈ Finset.range u.length, u.getD i 0 ^ 2 := by
  induction u with
  | nil => simp
  | cons a tu ih =>
    rw [List.map_cons, List.sum_cons, List.length_cons, Finset.sum_range_succ']
    simp only [List.getD_cons_succ, List.getD_cons_zero]
    rw [ih]
    ring

theorem list_cauchy_schwarz (u v : List ℚ) (h : u.length = v.length) :
    (List.zipWith (· * ·) u v).sum ^ 2
      ≤ (u.map fun a => a ^ 2).sum * (v.map fun a => a ^ 2).sum := by
  rw [zip_mul_sum_eq u v h, map_sq_sum_eq, map_sq_sum_eq, ← h]
  exact Finset.sum_mul_sq_le_sq_mul_sq _ _ _

theorem corr_cauchy_schwarz (x y : List ℚ) (h : x.length = y.length) :
    corrNum x y ^ 2 ≤ corrVar x * corrVar y := by
  unfold corrNum corrVar
  have hcs := list_cauchy_schwarz (x.map fun a => a - meanQ x)
    (y.map fun b => b - meanQ y) (by simp [h])
  rw [List.zipWith_map, List.map_map, List.map_map] at hcs
  exact hcs

/-- C9: every emitted salary-correlation entry concerns a skill with at
least 3 salaried records, has a strictly positive squared denominator
(the correlation is defined — never `NaN`), and satisfies
`num² ≤ denSq`, i.e. the Pearson coefficient `num/√denSq` lies in
`[-1, 1]`. -/
theorem correlation_emission_bounds (rows : List Rec) :
    ∀ p ∈ precompute_salary_correlation rows,
      3 ≤ ((rows.filter fun r => r.salary_avg.isSome).filter fun r =>
          (requiredSkills r).contains p.1).length ∧
      0 < p.2.2 ∧ p.2.1 ^ 2 ≤ p.2.2 := by
  intro p hp
  unfold precompute_salary_correlation at hp
  by_cases he : (rows.filter fun r => r.salary_avg.isSome).isEmpty
  · rw [if_pos he] at hp; simp at hp
  · rw [if_neg he] at hp
    simp only [List.mem_filterMap] at hp
    obtain ⟨skill, hskill, hf⟩ := hp
    split at hf
    · rename_i h3
      split at hf
      · rename_i hne
        injection hf with hf
        subst hf
        refine ⟨?_, ?_, ?_⟩
        · have := sum_indicator_count (rows.filter fun r => r.salary_avg.isSome)
            (fun r => (requiredSkills r).contains skill)
          rw [this] at h3
          exact_mod_cast h3
        · exact lt_of_le_of_ne
            (mul_nonneg (corrVar_nonneg _) (corrVar_nonneg _)) (Ne.symm hne)
        · exact corr_cauchy_schwarz _ _ (by simp)
      · exact absurd hf (by simp)
    · exact absurd hf (by simp)

/-- Witness for `correlation_emission_bounds`: on `corrRecsC9` the skill
`Go` is emitted with numerator 10250 and squared denominator 163812500;
`10250² ≤ 163812500` says `|r| ≤ 1`. -/
theorem correlation_emission_bounds_witness :
    3 ≤ ((corrRecsC9.filter fun r => r.salary_avg.isSome).filter fun r =>
        (requiredSkills r).contains ("Go", (10250 : ℚ), (163812500 : ℚ)).1).length ∧
    0 < ("Go", (10250 : ℚ), (163812500 : ℚ)).2.2 ∧
    ("Go", (10250 : ℚ), (163812500 : ℚ)).2.1 ^ 2
      ≤ ("Go", (10250 : ℚ), (163812500 : ℚ)).2.2 :=
  correlation_emission_bounds corrRecsC9 ("Go", 10250, 163812500) (by
    have h : precompute_salary_correlation corrRecsC9
        = [("Go", (10250 : ℚ), (163812500 : ℚ))] := by with_unfolding_all rfl
    rw [h]
    exact List.mem_singleton.mpr rfl)

/-! ## Association-list and fold lemmas for the dataset store (C1) -/

theorem mem_uniqueFirst {l : List String} {x : String} :
    x ∈ uniqueFirst l ↔ x ∈ l := by
  induction l with
  | nil => simp [uniqueFirst]
  | cons c cs ih =>
    simp only [uniqueFirst, List.mem_cons, List.mem_filter]
    constructor
    · rintro (rfl | ⟨hmem, -⟩)
      · exact Or.inl rfl
      · exact Or.inr (ih.mp hmem)
    · rintro (rfl | hcs)
      · exact Or.inl rfl
      · by_cases hx : x = c
        · exact Or.inl hx
        · exact Or.inr ⟨ih.mpr hcs, by simpa using hx⟩

theorem lookup_mem {l : List (String × List Rec)} {a : String} {v : List Rec}
    (h : l.lookup a = some v) : (a, v) ∈ l := by
  induction l with
  | nil => simp [List.lookup] at h
  | cons p t ih =>
    rw [List.lookup_cons] at h
    cases hb : (a == p.1) <;> rw [hb] at h
    · exact List.mem_cons_of_mem _ (ih h)
    · have h' : some p.2 = some v := h
      injection h' with h'
      have ha : a = p.1 := by simpa using hb
      subst h'
      subst ha
      exact List.mem_cons_self _ _

theorem lookup_eq_none_of_not_mem {l : List (String × List Rec)} {a : String}
    (h : a ∉ l.map Prod.fst) : l.lookup a = none := by
  induction l with
  | nil => rfl
  | cons p t ih =>
    rw [List.lookup_cons]
    have h1 : a ≠ p.1 := fun he => h (by simp [he])
    rw [show (a == p.1) = false from by simpa using h1]
    exact ih (fun hm => h (List.mem_cons_of_mem _ hm))

theorem not_mem_of_lookup_eq_none {l : List (String × List Rec)} {a : String}
    (h : l.lookup a = none) : a ∉ l.map Prod.fst := by
  induction l with
  | nil => simp
  | cons q t ih =>
    rw [List.lookup_cons] at h
    cases hb : (a == q.1) <;> rw [hb] at h
    · have ha : a ≠ q.1 := by simpa using hb
      simp only [List.map_cons, List.mem_cons]
      rintro (h1 | h2)
      · exact ha h1
      · exact (ih h) h2
    · have h' : some q.2 = none := h
      exact absurd h' (by simp)

theorem lookup_of_mem_nodup {l : List (String × List Rec)} {p : String × List Rec}
    (hnd : (l.map Prod.fst).Nodup) (hp : p ∈ l) : l.lookup p.1 = some p.2 := by
  induction l with
  | nil => simp at hp
  | cons q t ih =>
    rw [List.map_cons, List.nodup_cons] at hnd
    rw [List.lookup_cons]
    rcases List.mem_cons.mp hp with rfl | hpt
    · rw [show (p.1 == p.1) = true from by simp]
    · have hne : p.1 ≠ q.1 := by
        intro he
        exact hnd.1 (he ▸ List.mem_map_of_mem Prod.fst hpt)
      rw [show (p.1 == q.1) = false from by simpa using hne]
      exact ih hnd.2 hpt

theorem val_eq_of_mem_nodup {l : List (String × List Rec)} {p : String × List Rec}
    {e : List Rec} (hnd : (l.map Prod.fst).Nodup) (hp : p ∈ l)
    (hl : l.lookup p.1 = some e) : p.2 = e := by
  have h2 := lookup_of_mem_nodup hnd hp
  rw [h2] at hl
  exact Option.some.inj hl

theorem updateAssoc_keys (l : List (String × List Rec)) (ck : String) (v : List Rec) :
    (updateAssoc l ck v).map Prod.fst = l.map Prod.fst := by
  unfold updateAssoc
  rw [List.map_map]
  apply List.map_congr_left
  intro p _
  by_cases hb : p.1 = ck
  · simp only [Function.comp_apply, show (p.1 == ck) = true from by simpa using hb,
      if_pos]
    exact hb.symm
  · simp only [Function.comp_apply, show (p.1 == ck) = false from by simpa using hb]
    rw [if_neg (by simp)]

theorem mem_updateAssoc {l : List (String × List Rec)} {ck : String} {v : List Rec}
    {p : String × List Rec} (hp : p ∈ updateAssoc l ck v) : p ∈ l ∨ p = (ck, v) := by
  induction l with
  | nil => simp [updateAssoc] at hp
  | cons q t ih =>
    unfold updateAssoc at hp
    rw [List.map_cons] at hp
    rcases List.mem_cons.mp hp with h1 | h2
    · by_cases hb : q.1 == ck
      · rw [if_pos hb] at h1
        exact Or.inr h1
      · rw [if_neg hb] at h1
        exact Or.inl (h1 ▸ List.mem_cons_self _ _)
    · rcases ih h2 with h | h
      · exact Or.inl (List.mem_cons_of_mem _ h)
      · exact Or.inr h

theorem updateAssoc_mem_self {acc : List (String × List Rec)} {ck : String}
    (v : List Rec) (h : ck ∈ acc.map Prod.fst) : (ck, v) ∈ updateAssoc acc ck v := by
  induction acc with
  | nil => simp at h
  | cons q t ih =>
    unfold updateAssoc
    rw [List.map_cons]
    by_cases hb : q.1 = ck
    · rw [show (q.1 == ck) = true from by simpa using hb, if_pos rfl]
      exact List.mem_cons_self _ _
    · rw [show (q.1 == ck) = false from by simpa using hb]
      rw [if_neg (by simp)]
      have ht : ck ∈ t.map Prod.fst := by
        rw [List.map_cons, List.mem_cons] at h
        rcases h with h1 | h1
        · exact absurd h1.symm hb
        · exact h1
      exact List.mem_cons_of_mem _ (ih ht)

theorem mem_updateAssoc_of_ne {acc : List (String × List Rec)}
    {p : String × List Rec} {ck : String} (v : List Rec)
    (hp : p ∈ acc) (hne : p.1 ≠ ck) : p ∈ updateAssoc acc ck v := by
  induction acc with
  | nil => simp at hp
  | cons q t ih =>
    unfold updateAssoc
    rcases List.mem_cons.mp hp with rfl | hpt
    · rw [List.map_cons, show (p.1 == ck) = false from by simpa using hne]
      rw [if_neg (by simp)]
      exact List.mem_cons_self _ _
    · exact List.mem_cons_of_mem _ (by simpa [updateAssoc] using ih hpt)

theorem mem_keysOf_append {a b : List Rec} {k : String} :
    k ∈ keysOf (a ++ b) ↔ k ∈ keysOf a ∨ k ∈ keysOf b := by
  simp [keysOf]

theorem mem_keysOf_remove_duplicates {c e : List Rec} {k : String} :
    k ∈ keysOf (remove_duplicates c e) ↔ k ∈ keysOf c ∧ k ∉ keysOf e := by
  unfold keysOf
  rw [remove_duplicates_eq_filter]
  constructor
  · intro hk
    obtain ⟨r, hr, rfl⟩ := List.mem_map.mp hk
    have hf := List.mem_filter.mp hr
    refine ⟨List.mem_map_of_mem _ hf.1, ?_⟩
    intro hmem
    have hc := contains_true_iff.mpr hmem
    rw [hc] at hf
    exact absurd hf.2 (by simp)
  · rintro ⟨hk, hne⟩
    obtain ⟨r, hr, rfl⟩ := List.mem_map.mp hk
    apply List.mem_map_of_mem
    rw [List.mem_filter]
    refine ⟨hr, ?_⟩
    have : (e.map create_key).contains (create_key r) = false := by
      rw [Bool.eq_false_iff]
      intro hct
      exact hne (contains_true_iff.mp hct)
    rw [this]
    rfl

theorem step_nodup (df : List Rec) (acc : List (String × List Rec)) (ck : String)
    (h : (acc.map Prod.fst).Nodup) :
    ((merge_category_step df acc ck).map Prod.fst).Nodup := by
  unfold merge_category_step
  cases hl : acc.lookup ck with
  | none =>
    simp only [List.map_append]
    rw [List.nodup_append]
    refine ⟨h, by simp, ?_⟩
    simp only [List.map_cons, List.map_nil, List.disjoint_singleton]
    exact not_mem_of_lookup_eq_none hl
  | some e =>
    rw [updateAssoc_keys]
    exact h

theorem step_fixed (df : List Rec) (acc : List (String × List Rec)) (ck : String)
    (hacc : ∀ p ∈ acc, pyNorm p.1 = p.1) (hck : pyNorm ck = ck) :
    ∀ p ∈ merge_category_step df acc ck, pyNorm p.1 = p.1 := by
  unfold merge_category_step
  cases hl : acc.lookup ck with
  | none =>
    intro p hp
    rcases List.mem_append.mp hp with h | h
    · exact hacc p h
    · rcases List.mem_singleton.mp h with rfl
      exact hck
  | some e =>
    intro p hp
    rcases mem_updateAssoc hp with h | rfl
    · exact hacc p h
    · exact hck

theorem step_unionKeys (df : List Rec) (acc : List (String × List Rec)) (ck : String)
    (hnd : (acc.map Prod.fst).Nodup) (k : String) :
    (∃ p ∈ merge_category_step df acc ck, k ∈ keysOf p.2) ↔
      (∃ p ∈ acc, k ∈ keysOf p.2) ∨
        k ∈ keysOf (df.filter fun r => recCat r == ck) := by
  unfold merge_category_step
  cases hl : acc.lookup ck with
  | none =>
    constructor
    · rintro ⟨p, hp, hk⟩
      rcases List.mem_append.mp hp with h | h
      · exact Or.inl ⟨p, h, hk⟩
      · rcases List.mem_singleton.mp h with rfl
        exact Or.inr hk
    · rintro (⟨p, hp, hk⟩ | hk)
      · exact ⟨p, List.mem_append_left _ hp, hk⟩
      · exact ⟨(ck, df.filter fun r => recCat r == ck),
          List.mem_append_right _ (List.mem_singleton_self _), hk⟩
  | some e =>
    have hmem : (ck, e) ∈ acc := lookup_mem hl
    constructor
    · rintro ⟨p, hp, hk⟩
      rcases mem_updateAssoc hp with h | rfl
      · exact Or.inl ⟨p, h, hk⟩
      · rcases mem_keysOf_append.mp hk with h | h
        · exact Or.inl ⟨(ck, e), hmem, h⟩
        · exact Or.inr (mem_keysOf_remove_duplicates.mp h).1
    · rintro (⟨p, hp, hk⟩ | hk)
      · by_cases hc : p.1 = ck
        · have hpe : p.2 = e := val_eq_of_mem_nodup hnd hp (hc ▸ hl)
          refine ⟨(ck, e ++ remove_duplicates (df.filter fun r => recCat r == ck) e),
            updateAssoc_mem_self _ (by exact hc ▸ List.mem_map_of_mem Prod.fst hp), ?_⟩
          exact mem_keysOf_append.mpr (Or.inl (hpe ▸ hk))
        · exact ⟨p, mem_updateAssoc_of_ne _ hp hc, hk⟩
      · by_cases hke : k ∈ keysOf e
        · exact ⟨(ck, e ++ remove_duplicates (df.filter fun r => recCat r == ck) e),
            updateAssoc_mem_self _ (List.mem_map_of_mem Prod.fst hmem),
            mem_keysOf_append.mpr (Or.inl hke)⟩
        · exact ⟨(ck, e ++ remove_duplicates (df.filter fun r => recCat r == ck) e),
            updateAssoc_mem_self _ (List.mem_map_of_mem Prod.fst hmem),
            mem_keysOf_append.mpr (Or.inr (mem_keysOf_remove_duplicates.mpr ⟨hk, hke⟩))⟩

theorem foldl_step_nodup (df : List Rec) :
    ∀ (cks : List String) (acc : List (String × List Rec)),
      (acc.map Prod.fst).Nodup →
      (((cks.foldl (merge_category_step df) acc)).map Prod.fst).Nodup := by
  intro cks
  induction cks with
  | nil => intro acc h; exact h
  | cons c cs ih =>
    intro acc h
    exact ih _ (step_nodup df acc c h)

theorem foldl_step_fixed (df : List Rec) :
    ∀ (cks : List String) (acc : List (String × List Rec)),
      (∀ p ∈ acc, pyNorm p.1 = p.1) → (∀ ck ∈ cks, pyNorm ck = ck) →
      ∀ p ∈ cks.foldl (merge_category_step df) acc, pyNorm p.1 = p.1 := by
  intro cks
  induction cks with
  | nil => intro acc h _; exact h
  | cons c cs ih =>
    intro acc h hck
    exact ih _ (step_fixed df acc c h (hck c (List.mem_cons_self _ _)))
      (fun x hx => hck x (List.mem_cons_of_mem _ hx))

theorem foldl_step_unionKeys (df : List Rec) :
    ∀ (cks : List String) (acc : List (String × List Rec)),
      (acc.map Prod.fst).Nodup → ∀ k,
      ((∃ p ∈ cks.foldl (merge_category_step df) acc, k ∈ keysOf p.2) ↔
        (∃ p ∈ acc, k ∈ keysOf p.2) ∨
          ∃ ck ∈ cks, k ∈ keysOf (df.filter fun r => recCat r == ck)) := by
  intro cks
  induction cks with
  | nil => intro acc _ k; simp
  | cons c cs ih =>
    intro acc hnd k
    rw [List.foldl_cons, ih _ (step_nodup df acc c hnd) k, step_unionKeys df acc c hnd k]
    constructor
    · rintro ((h | h) | ⟨ck, hck, h⟩)
      · exact Or.inl h
      · exact Or.inr ⟨c, List.mem_cons_self _ _, h⟩
      · exact Or.inr ⟨ck, List.mem_cons_of_mem _ hck, h⟩
    · rintro (h | ⟨ck, hck, h⟩)
      · exact Or.inl (Or.inl h)
      · rcases List.mem_cons.mp hck with rfl | h2
        · exact Or.inl (Or.inr h)
        · exact Or.inr ⟨ck, h2, h⟩

theorem merge_categories_nodup (cats : List (String × List Rec)) (df : List Rec)
    (h : (cats.map Prod.fst).Nodup) :
    ((merge_categories cats df).map Prod.fst).Nodup :=
  foldl_step_nodup df _ cats h

theorem merge_categories_fixed (cats : List (String × List Rec)) (df : List Rec)
    (h : ∀ p ∈ cats, pyNorm p.1 = p.1)
    (hdf : ∀ r ∈ df, pyNorm (recCat r) = recCat r) :
    ∀ p ∈ merge_categories cats df, pyNorm p.1 = p.1 := by
  apply foldl_step_fixed df _ cats h
  intro ck hck
  obtain ⟨r, hr, rfl⟩ := List.mem_map.mp (mem_uniqueFirst.mp hck)
  exact hdf r hr

theorem merge_categories_unionKeys (cats : List (String × List Rec)) (df : List Rec)
    (hnd : (cats.map Prod.fst).Nodup) (k : String) :
    (∃ p ∈ merge_categories cats df, k ∈ keysOf p.2) ↔
      (∃ p ∈ cats, k ∈ keysOf p.2) ∨ k ∈ keysOf df := by
  unfold merge_categories
  rw [foldl_step_unionKeys df _ cats hnd k]
  apply or_congr Iff.rfl
  constructor
  · rintro ⟨ck, -, hk⟩
    obtain ⟨r, hr, rfl⟩ := List.mem_map.mp hk
    exact List.mem_map_of_mem _ (List.mem_of_mem_filter hr)
  · intro hk
    obtain ⟨r, hr, rfl⟩ := List.mem_map.mp hk
    refine ⟨recCat r, mem_uniqueFirst.mpr (List.mem_map_of_mem recCat hr), ?_⟩
    apply List.mem_map_of_mem
    rw [List.mem_filter]
    exact ⟨hr, by simp⟩

theorem recCat_set_categories {b : List Rec} {r : Rec} (h : r ∈ set_categories b) :
    pyNorm (recCat r) = recCat r := by
  unfold set_categories at h
  obtain ⟨r0, -, rfl⟩ := List.mem_map.mp h
  exact pyNorm_idem _

theorem keysOf_set_categories (b : List Rec) :
    keysOf (set_categories b) = keysOf b := by
  unfold keysOf set_categories
  rw [List.map_map]
  apply List.map_congr_left
  intro r _
  rfl

theorem mem_keysOf_flatten {cats : List (String × List Rec)} {k : String} :
    k ∈ keysOf (cats.map Prod.snd).flatten ↔ ∃ p ∈ cats, k ∈ keysOf p.2 := by
  unfold keysOf
  simp only [List.mem_map, List.mem_flatten]
  constructor
  · rintro ⟨r, ⟨l, hl, hrl⟩, rfl⟩
    obtain ⟨p, hp, rfl⟩ := hl
    exact ⟨p, hp, r, hrl, rfl⟩
  · rintro ⟨p, hp, r, hr, rfl⟩
    exact ⟨r, ⟨p.2, ⟨p, hp, rfl⟩, hr⟩, rfl⟩

theorem inv_init : StateInv initState := by
  refine ⟨by simp [initState], by simp [initState], fun _ => rfl, ?_⟩
  intro k
  simp [initState, get_data, keysOf]

theorem inv_ingest (s : ProcState) (batch : List Rec) (h : StateInv s) :
    StateInv (process_json_data_merge s batch true) := by
  obtain ⟨hnd, hfix, hnone, hcontent⟩ := h
  unfold process_json_data_merge
  cases hdf : s.df with
  | none =>
    have hcats : s.categories_data = [] := hnone hdf
    rw [hcats]
    refine ⟨merge_categories_nodup [] _ (by simp), ?_, by simp, ?_⟩
    · exact merge_categories_fixed [] _ (by simp)
        (fun r hr => recCat_set_categories hr)
    · intro k
      show k ∈ keysOf (set_categories batch) ↔ _
      rw [merge_categories_unionKeys [] _ (by simp) k]
      simp
  | some existing =>
    refine ⟨merge_categories_nodup _ _ hnd, ?_, by simp, ?_⟩
    · refine merge_categories_fixed _ _ hfix (fun r hr => ?_)
      exact recCat_set_categories ((remove_duplicates_sublist _ _).subset hr)
    · intro k
      show k ∈ keysOf (existing ++ remove_duplicates (set_categories batch) existing) ↔ _
      rw [mem_keysOf_append, merge_categories_unionKeys _ _ hnd k]
      apply or_congr _ Iff.rfl
      have := hcontent k
      rw [show get_data s = existing from by simp [get_data, hdf]] at this
      exact this

theorem inv_clear (s : ProcState) (c : Option String) (h : StateInv s) :
    StateInv (clear_category_data s c) := by
  obtain ⟨hnd, hfix, hdfn, hcontent⟩ := h
  cases c with
  | none =>
    exact ⟨by simp [clear_category_data], by simp [clear_category_data],
      by simp [clear_category_data],
      by intro k; simp [clear_category_data, get_data, keysOf]⟩
  | some cs =>
    simp only [clear_category_data]
    by_cases hall : (cs == "all") = true
    · rw [if_pos hall]
      exact ⟨by simp, by simp, by simp, by intro k; simp [get_data, keysOf]⟩
    · rw [if_neg (by simpa using hall)]
      by_cases hl : (s.categories_data.lookup (pyNorm cs)).isSome
      · rw [if_pos hl]
        have hsub : (s.categories_data.filter fun p => p.1 != pyNorm cs).Sublist
            s.categories_data := List.filter_sublist _
        refine ⟨?_, ?_, by simp, ?_⟩
        · exact List.Nodup.sublist (hsub.map Prod.fst) hnd
        · intro p hp
          exact hfix p (List.mem_of_mem_filter hp)
        · intro k
          have hflat : (if (s.categories_data.filter fun p => p.1 != pyNorm cs).isEmpty
              then ([] : List Rec)
              else ((s.categories_data.filter fun p => p.1 != pyNorm cs).map
                Prod.snd).flatten)
              = ((s.categories_data.filter fun p => p.1 != pyNorm cs).map
                Prod.snd).flatten := by
            cases hfe : (s.categories_data.filter fun p => p.1 != pyNorm cs) with
            | nil => simp
            | cons a t => simp
          show k ∈ keysOf (if _ then _ else _) ↔ _
          rw [hflat, mem_keysOf_flatten]
      · rw [if_neg hl]
        exact ⟨hnd, hfix, hdfn, hcontent⟩

theorem inv_foldl : ∀ (ops : List Op) (s : ProcState), StateInv s →
    StateInv (ops.foldl runOp s) := by
  intro ops
  induction ops with
  | nil => intro s h; exact h
  | cons op rest ih =>
    intro s h
    apply ih
    cases op with
    | ingest batch => exact inv_ingest s batch h
    | clear c => exact inv_clear s c h

theorem inv_runOps (ops : List Op) : StateInv (runOps ops) :=
  inv_foldl ops initState inv_init

/-- C1 counterexample: two `append=false` ingests into different
categories.  The second replaces the full table with its own batch, but
the first batch's records survive in the `x` partition, so `get_data` is
a strict subset (by identity key) of the union of the partitions: the
claimed equality fails after an `append=false` ingest. -/
theorem category_partition_consistency_cex :
    create_key cexA ∈ keysOf (get_data_by_category
      (process_json_data_merge (process_json_data_merge initState [cexA] false)
        [cexB] false) (some "x")) ∧
    "x" ∈ get_categories
      (process_json_data_merge (process_json_data_merge initState [cexA] false)
        [cexB] false) ∧
    create_key cexA ∉ keysOf (get_data
      (process_json_data_merge (process_json_data_merge initState [cexA] false)
        [cexB] false)) := by
  refine ⟨?_, ?_, ?_⟩ <;> with_unfolding_all decide

/-- C1 (amended): after any sequence of `append=true` ingests and
category clears starting from the fresh store, the identity keys of
`get_data()` are exactly the union over `get_categories()` of the
identity keys of `get_data_by_category(c)`.  (An `append=false` ingest
breaks the equality — see the counterexample — because it replaces the
full table while the partitions keep their old records.) -/
theorem category_partition_consistency (ops : List Op) :
    ∀ k, k ∈ keysOf (get_data (runOps ops)) ↔
      ∃ c ∈ get_categories (runOps ops),
        k ∈ keysOf (get_data_by_category (runOps ops) (some c)) := by
  obtain ⟨hnd, hfix, -, hcontent⟩ := inv_runOps ops
  intro k
  rw [hcontent k]
  constructor
  · rintro ⟨p, hp, hk⟩
    refine ⟨p.1, List.mem_map_of_mem Prod.fst hp, ?_⟩
    simp only [get_data_by_category]
    by_cases hall : (p.1 == "all") = true
    · rw [if_pos hall]
      exact (hcontent k).mpr ⟨p, hp, hk⟩
    · rw [if_neg (by simpa using hall)]
      rw [hfix p hp, lookup_of_mem_nodup hnd hp]
      exact hk
  · rintro ⟨c, hc, hk⟩
    simp only [get_data_by_category] at hk
    by_cases hall : (c == "all") = true
    · rw [if_pos hall] at hk
      exact (hcontent k).mp hk
    · rw [if_neg (by simpa using hall)] at hk
      obtain ⟨p, hp, rfl⟩ := List.mem_map.mp hc
      rw [hfix p hp] at hk
      cases hl : (runOps ops).categories_data.lookup p.1 with
      | none => rw [hl] at hk; simp [keysOf] at hk
      | some v =>
        rw [hl] at hk
        exact ⟨(p.1, v), lookup_mem hl, hk⟩
